import Mathlib

/-!
# Verification of the cbuild in-process build orchestrator

A shallow embedding of the core of `cbuild.h` (single-header C build system):
the graph model, the freshness oracle, the command-line synthesizer, the
DFS scheduler, the manifest protocol and the compile-commands exporter.

Conventions used throughout:

* The filesystem is modelled as `Fs := String → Option Nat`: `fs p = some m`
  means `stat(p)` succeeds with `st_mtime = m`; `fs p = none` means `stat`
  fails (the file is missing).
* Shell execution is modelled by an oracle `Oracle := String → Fs → Int × Fs`:
  running a shell line returns an exit code and may change the filesystem.
* C pointers into the global arenas (`g_targets`, `g_commands`) become list
  indices (`Nat`).  `dfs_build_func` looks a target pointer up by linear scan
  over `g_targets`; with indices this lookup is `List.get?`.
* Machine integers hold small counts and exit codes here; no overflow is
  reachable, so exit codes are `Int` and counts are `Nat`.
* All definitions follow the `#else` (non-`_WIN32`) branches of the C source,
  i.e. the Unix / GCC-like compiler family.
-/

namespace CBuild

/-- Filesystem view: mtime per path, `none` when `stat` fails. -/
abbrev Fs : Type := String → Option Nat

/-- Shell oracle: run a shell line against a filesystem, obtaining the
process exit code and the filesystem afterwards (`run_command`). -/
abbrev Oracle : Type := String → Fs → Int × Fs

/-- `cbuild_target_type` from the C source.  Note: the enum has no proxy
variant; proxy targets created by `cbuild_subproject_get_target` reuse one of
the three artifact kinds. -/
inductive TargetType where
  | executable
  | static_lib
  | shared_lib
  | command
deriving DecidableEq, Repr

/-- `struct cbuild_target`.  `char *` fields that can be `NULL` are `Option`;
pointer arrays become index lists into the global arenas. -/
structure Target where
  type : TargetType
  name : Option String := none
  sources : List String := []
  include_dirs : List String := []
  lib_dirs : List String := []
  link_libs : List String := []
  dependencies : List Nat := []
  cflags : Option String := none
  ldflags : Option String := none
  output_file : Option String := none
  obj_dir : Option String := none
  commands : List Nat := []
  post_commands : List Nat := []
  defines : List String := []
deriving DecidableEq, Repr

/-- `struct cbuild_command` (the persistent part; the transient `executed` /
`result` memoization lives in `CmdState`). -/
structure Cmd where
  name : String
  command_line : String
  dependencies : List Nat
deriving DecidableEq, Repr

/-- Transient per-run command memoization: `executed` and `result` fields of
`struct cbuild_command`. -/
structure CmdState where
  executed : Nat → Bool
  result : Nat → Int

/-- Fresh state at the start of a process: `calloc` zeroes both fields. -/
def CmdState.init : CmdState := ⟨fun _ => false, fun _ => 0⟩

/-- Global build settings (`g_output_dir`, `g_cc`, `g_ar`, `g_ld`,
`g_global_cflags`, `g_global_ldflags`, `g_global_defines`) after
`cbuild_init` has filled the defaults. -/
structure Globals where
  output_dir : String
  cc : String
  ar : String
  ld : String
  global_cflags : Option String
  global_ldflags : Option String
  global_defines : List String
deriving DecidableEq, Repr

/-! ## Freshness oracle (`need_recompile`) -/

/-- `need_recompile(src_file, obj_file, dep_file)` from the C source:

```
if (stat(src_file, &st_src) != 0) return 1;
if (stat(obj_file, &st_obj) != 0) return 1;
if (st_src.st_mtime > st_obj.st_mtime) return 1;
return 0;
```

The `dep_file` argument is accepted and never read. -/
def need_recompile (fs : Fs) (src_file obj_file dep_file : String) : Bool :=
  match fs src_file with
  | none => true
  | some st_src =>
    match fs obj_file with
    | none => true
    | some st_obj => st_src > st_obj

/-! ## Object path computation

`build_target` and `collect_compile_commands_for_target` both derive the
object file name from a source path with
`base = strrchr(src,'/') ? slash+1 : src` and
`len = strrchr(base,'.') ? dot-base : strlen(base)`, then
`snprintf("%s/%.*s.o", obj_dir, len, base)`. -/

/-- Suffix of a character list after the last occurrence of `c`
(the whole list when `c` does not occur) — `strrchr` + 1. -/
def afterLastChar (c : Char) (l : List Char) : List Char :=
  ((l.reverse.takeWhile (fun x => x ≠ c))).reverse

/-- Prefix of a character list before the last occurrence of `c`
(the whole list when `c` does not occur) — truncation at `strrchr`. -/
def beforeLastChar (c : Char) (l : List Char) : List Char :=
  if l.contains c then ((l.reverse.dropWhile (fun x => x ≠ c)).drop 1).reverse
  else l

/-- The basename of a source path: everything after the last `'/'`. -/
def srcBase (src : String) : String :=
  ⟨afterLastChar '/' src.data⟩

/-- The stem of a source path: the basename truncated at its last `'.'`. -/
def srcStem (src : String) : String :=
  ⟨beforeLastChar '.' (afterLastChar '/' src.data)⟩

/-- `snprintf(objname, "%s/%.*s.o", obj_dir, len, base)`. -/
def objPathIn (obj_dir : String) (src : String) : String :=
  obj_dir ++ "/" ++ srcStem src ++ ".o"

/-- `snprintf(depname, "%s/%.*s.o.d", obj_dir, len, base)`. -/
def depPathIn (obj_dir : String) (src : String) : String :=
  obj_dir ++ "/" ++ srcStem src ++ ".o.d"

/-- The C source passes `t->obj_dir` (possibly `NULL` for proxy targets,
which own no sources, so this is never reached for them) to `%s`; glibc
renders a `NULL` string argument as `"(null)"`. -/
def Target.objDirStr (t : Target) : String := t.obj_dir.getD "(null)"

/-! ## Compile-line synthesizer (`compile_source`, Unix branch) -/

/-- The command string assembled by `compile_source` on the non-`_WIN32`
branch, in source order: quoted compiler, `-c -o "<obj>"`, per-target cflags
when set and non-empty else global cflags, `-I"<inc>"` per include dir,
`-D<m>` per global define, `-D<m>` per target define, quoted source. -/
def compile_source_cmd (g : Globals) (t : Target) (src_file obj_file : String) : String :=
  let cmd := "\"" ++ g.cc ++ "\" "
  let cmd := cmd ++ "-c -o \"" ++ obj_file ++ "\" "
  let cmd :=
    match t.cflags with
    | some c =>
        if c.length > 0 then cmd ++ c ++ " "
        else match g.global_cflags with
          | some gc => cmd ++ gc ++ " "
          | none => cmd
    | none =>
        match g.global_cflags with
        | some gc => cmd ++ gc ++ " "
        | none => cmd
  let cmd := t.include_dirs.foldl (fun acc inc => acc ++ "-I\"" ++ inc ++ "\" ") cmd
  let cmd := g.global_defines.foldl (fun acc d => acc ++ "-D" ++ d ++ " ") cmd
  let cmd := t.defines.foldl (fun acc d => acc ++ "-D" ++ d ++ " ") cmd
  cmd ++ "\"" ++ src_file ++ "\""

/-- The command string assembled by `collect_compile_commands_for_target`
for one source (non-`_WIN32` branch), transcribed independently from its own
loop body: the object name is recomputed from `t->obj_dir` and the source
basename, then the same sequence of `append_format` calls is replayed. -/
def collect_cc_cmd (g : Globals) (t : Target) (src_file : String) : String :=
  let objname := t.objDirStr ++ "/" ++ srcStem src_file ++ ".o"
  let cmd := "\"" ++ g.cc ++ "\" "
  let cmd := cmd ++ "-c -o \"" ++ objname ++ "\" "
  let cmd :=
    match t.cflags with
    | some c =>
        if c.length > 0 then cmd ++ c ++ " "
        else match g.global_cflags with
          | some gc => cmd ++ gc ++ " "
          | none => cmd
    | none =>
        match g.global_cflags with
        | some gc => cmd ++ gc ++ " "
        | none => cmd
  let cmd := t.include_dirs.foldl (fun acc inc => acc ++ "-I\"" ++ inc ++ "\" ") cmd
  let cmd := g.global_defines.foldl (fun acc d => acc ++ "-D" ++ d ++ " ") cmd
  let cmd := t.defines.foldl (fun acc d => acc ++ "-D" ++ d ++ " ") cmd
  cmd ++ "\"" ++ src_file ++ "\""

/-- One entry of the compile-commands index
(`compile_commands_entry_t`). -/
structure CcEntry where
  directory : String
  command : String
  file : String
deriving DecidableEq, Repr

/-- `collect_compile_commands_for_target`: one entry per source of the
target, with the synthesized line and the source path (`directory` is the
process CWD, a parameter here). -/
def collect_compile_commands_for_target (g : Globals) (cwd : String) (t : Target) :
    List CcEntry :=
  t.sources.map (fun src => ⟨cwd, collect_cc_cmd g t src, src⟩)

/-! ## Manifest emission (`cbuild_run`, `--manifest` branch) -/

/-- The `switch (t->type)` in the manifest branch: the kind keyword for the
three artifact kinds, `none` for the `default: continue` case. -/
def typeKindString : TargetType → Option String
  | .static_lib => some "static_lib"
  | .shared_lib => some "shared_lib"
  | .executable => some "executable"
  | .command => none

/-- The stdout lines printed by the `--manifest` branch of `cbuild_run`:
one `KIND NAME PATH` line per registry target, in registration order,
skipping targets whose `output_file` or `name` is `NULL` and targets whose
type has no kind keyword. -/
def manifestLines (targets : List Target) : List String :=
  targets.filterMap (fun t =>
    match t.output_file, t.name with
    | some out, some nm =>
        match typeKindString t.type with
        | some ty => some (ty ++ " " ++ nm ++ " " ++ out)
        | none => none
    | _, _ => none)

/-! ## Proxy targets (`cbuild_subproject_get_target`) -/

/-- `cbuild__join_path`: join with `'/'` unless the left part is empty or
already ends in a separator. -/
def joinPath (a b : String) : String :=
  if a.length > 0 && a.data.getLast? ≠ some '/' && a.data.getLast? ≠ some '\\' then
    a ++ "/" ++ b
  else a ++ b

/-- The proxy `target_t` built by `cbuild_subproject_get_target` from a
manifest record `(stgt_name, stgt_type, stgt_output_path)` of a subproject
with directory `sub_directory` and alias `sub_alias`, whose build command
sits at index `build_cmd` in the command arena.  Returns `none` when the
recorded type string is unknown (the C function prints a diagnostic and
returns `NULL`).  The struct is `calloc`ed, so every unset field is
zero/`NULL`/empty. -/
def mkProxyTarget (sub_directory sub_alias : String)
    (stgt_name stgt_type stgt_output_path : String) (build_cmd : Nat) :
    Option Target :=
  let type? : Option TargetType :=
    if stgt_type = "static_lib" then some .static_lib
    else if stgt_type = "shared_lib" then some .shared_lib
    else if stgt_type = "executable" then some .executable
    else none
  match type? with
  | none => none
  | some ty => some
      { type := ty
        name := some (sub_alias ++ "_" ++ stgt_name)
        sources := []
        include_dirs := []
        lib_dirs := []
        link_libs := []
        dependencies := []
        cflags := none
        ldflags := none
        output_file := some (joinPath sub_directory stgt_output_path)
        obj_dir := none
        commands := [build_cmd]
        post_commands := []
        defines := [] }

/-! ## Command execution (`cbuild_run_command`, `dfs_command_func`)

The C recursion has no structural bound (a cyclic command graph makes it
diverge), so the embedding takes a fuel parameter; exhausting fuel returns
exit code `1` without executing anything, marking the diverging paths.
`exec` abstracts `run_command(cmd->command_line, 0, NULL)`, indexed by the
command's arena slot. -/

/-- Marking a command as executed with result `rc`
(`cmd->executed = 1; cmd->result = rc;`). -/
def CmdState.mark (st : CmdState) (i : Nat) (rc : Int) : CmdState :=
  ⟨fun j => if j = i then true else st.executed j,
   fun j => if j = i then rc else st.result j⟩

mutual

/-- `cbuild_run_command(cmd)`:

```
if (!cmd) return -1;
for deps: rc = cbuild_run_command(dep); if (rc != 0) return rc;
if (cmd->executed) return cmd->result;
rc = run_command(cmd->command_line, 0, NULL);
cmd->executed = 1; cmd->result = rc;
return rc;
```

An out-of-range index plays the role of a `NULL` pointer.  Returns the memo
state, the filesystem, the exit code, and the trace of arena indices whose
shell line was actually spawned, in execution order. -/
def runCmd (cmds : List Cmd) (or : Oracle) :
    Nat → Nat → CmdState → Fs → CmdState × Fs × Int × List Nat
  | 0, _, st, fs => (st, fs, 1, [])
  | fuel + 1, i, st, fs =>
    match cmds.get? i with
    | none => (st, fs, -1, [])
    | some c =>
      match runCmdDeps cmds or fuel c.dependencies st fs with
      | (st', fs', some rc, tr) => (st', fs', rc, tr)
      | (st', fs', none, tr) =>
        if st'.executed i then (st', fs', st'.result i, tr)
        else
          match or c.command_line fs' with
          | (rc, fs'') => (st'.mark i rc, fs'', rc, tr ++ [i])
termination_by fuel i st fs => (fuel, 0)

/-- The dependency loop of `cbuild_run_command`: `some rc` signals the early
`return rc` taken on the first dependency that fails. -/
def runCmdDeps (cmds : List Cmd) (or : Oracle) :
    Nat → List Nat → CmdState → Fs → CmdState × Fs × Option Int × List Nat
  | _, [], st, fs => (st, fs, none, [])
  | fuel, d :: ds, st, fs =>
    match runCmd cmds or fuel d st fs with
    | (st', fs', rc, tr) =>
      if rc ≠ 0 then (st', fs', some rc, tr)
      else
        match runCmdDeps cmds or fuel ds st' fs' with
        | (st'', fs'', r, tr') => (st'', fs'', r, tr ++ tr')
termination_by fuel ds st fs => (fuel, ds.length + 1)

end

mutual

/-- `dfs_command_func(cmd, error_flag)`:

```
if (!cmd || *error_flag) return;
if (cmd->executed) return;
for deps: dfs_command_func(dep); if (*error_flag) return;
if (cbuild_run_command(cmd) != 0) *error_flag = 1;
```

Returns the memo state, the filesystem, the error flag, and the execution
trace. -/
def dfsCmd (cmds : List Cmd) (or : Oracle) :
    Nat → Nat → CmdState → Fs → Bool → CmdState × Fs × Bool × List Nat
  | 0, _, st, fs, _ => (st, fs, true, [])
  | fuel + 1, i, st, fs, err =>
    if err then (st, fs, err, [])
    else
      match cmds.get? i with
      | none => (st, fs, err, [])
      | some c =>
        if st.executed i then (st, fs, err, [])
        else
          match dfsCmdDeps cmds or fuel c.dependencies st fs err with
          | (st', fs', true, tr) => (st', fs', true, tr)
          | (st', fs', false, tr) =>
            match runCmd cmds or (fuel + 1) i st' fs' with
            | (st'', fs'', rc, tr') => (st'', fs'', rc ≠ 0, tr ++ tr')
termination_by fuel i st fs err => (fuel, 0)

/-- The dependency loop of `dfs_command_func`. -/
def dfsCmdDeps (cmds : List Cmd) (or : Oracle) :
    Nat → List Nat → CmdState → Fs → Bool → CmdState × Fs × Bool × List Nat
  | _, [], st, fs, err => (st, fs, err, [])
  | fuel, d :: ds, st, fs, err =>
    match dfsCmd cmds or fuel d st fs err with
    | (st', fs', true, tr) => (st', fs', true, tr)
    | (st', fs', false, tr) =>
      match dfsCmdDeps cmds or fuel ds st' fs' false with
      | (st'', fs'', e, tr') => (st'', fs'', e, tr ++ tr')
termination_by fuel ds st fs err => (fuel, ds.length + 1)

end

/-! ## Scheduler (`build_target`, `dfs_build_func`, `cbuild_run`) -/

/-- Observable events of one `run`, in order: compile / archive-link
subprocesses (tagged with the registry index of their target), invocations of
`build_target`, Command shell-line spawns, raw `run_command` spawns, the
"circular dependency involving ..." diagnostic, and stdout lines of the
manifest branch. -/
inductive Ev where
  | compile (tgt : Nat) (src : String)
  | link (tgt : Nat)
  | buildTgt (tgt : Nat)
  | cmdExec (c : Nat)
  | shell (line : String)
  | cycleError (tgt : Nat)
  | stdoutLine (s : String)
deriving DecidableEq, Repr

/-- The compile loop of `build_target`: for each source, derive the object
and dep paths, consult `need_recompile`, and on a hit spawn the compile line;
a failing compile sets the error flag and aborts the loop (`goto cleanup`).
The `COMPILE` progress step (our `Ev.compile`) is printed before spawning. -/
def compilePhase (g : Globals) (or : Oracle) (ti : Nat) (t : Target) :
    List String → Fs → Fs × Bool × List Ev
  | [], fs => (fs, false, [])
  | src :: rest, fs =>
    let objname := objPathIn t.objDirStr src
    let depname := depPathIn t.objDirStr src
    if need_recompile fs src objname depname then
      match or (compile_source_cmd g t src objname) fs with
      | (rc, fs') =>
        if rc ≠ 0 then (fs', true, [Ev.compile ti src])
        else
          match compilePhase g or ti t rest fs' with
          | (fs'', err, evs) => (fs'', err, Ev.compile ti src :: evs)
    else
      compilePhase g or ti t rest fs

/-- The relink decision of `build_target`: link when the output is missing,
or some object file is missing or newer than the output, or some
target-dependency has an (existing) output newer than the output.
(`t->output_file` is non-`NULL` for every target the C program can create;
the `none` case mirrors a failing `stat`.) -/
def needs_link (fs : Fs) (reg : List Target) (t : Target) (objs : List String) : Bool :=
  match t.output_file with
  | none => true
  | some out =>
    match fs out with
    | none => true
    | some st_out =>
      if objs.any (fun o =>
          match fs o with
          | none => true
          | some m => m > st_out) then true
      else t.dependencies.any (fun di =>
        match reg.get? di with
        | none => false
        | some dep =>
          match dep.output_file with
          | none => false
          | some dout =>
            match fs dout with
            | none => false
            | some m => m > st_out)

/-- The archive / link command line assembled by `build_target` (Linux
branches): `ar rcs <out> <objs…>` for a static library, else
`<ld> -o <out> <objs…>` followed by `-L"<dir>"` per library dir, `-l<name>`
per external lib, the raw output paths of static/shared target-deps, the
per-target ldflags, the global ldflags, and `-shared` for a shared library.
A `command`-typed target is unreachable here (no API creates one); the C
code would pass a `NULL` command line to `run_command`. -/
def link_cmd (g : Globals) (reg : List Target) (t : Target) (objs : List String) : String :=
  match t.type with
  | .static_lib =>
    objs.foldl (fun acc o => acc ++ " " ++ o)
      (g.ar ++ " rcs " ++ t.output_file.getD "(null)")
  | .executable | .shared_lib =>
    let cmd := g.ld ++ " -o " ++ t.output_file.getD "(null)"
    let cmd := objs.foldl (fun acc o => acc ++ " " ++ o) cmd
    let cmd := t.lib_dirs.foldl (fun acc p => acc ++ " -L\"" ++ p ++ "\"") cmd
    let cmd := t.link_libs.foldl (fun acc l => acc ++ " -l" ++ l) cmd
    let cmd := t.dependencies.foldl (fun acc di =>
      match reg.get? di with
      | some dep =>
        if dep.type = TargetType.static_lib ∨ dep.type = TargetType.shared_lib then
          acc ++ " " ++ dep.output_file.getD "(null)"
        else acc
      | none => acc) cmd
    let cmd := match t.ldflags with | some lf => cmd ++ " " ++ lf | none => cmd
    let cmd := match g.global_ldflags with | some lf => cmd ++ " " ++ lf | none => cmd
    if t.type = TargetType.shared_lib then cmd ++ " -shared" else cmd
  | .command => ""

/-- `build_target(t, error_flag)`: compile every stale source (aborting on
the first failure), then decide link freshness on the filesystem as left by
the compiles, and when stale spawn the archive/link line (`Ev.link`),
recording failure. -/
def build_target (g : Globals) (reg : List Target) (or : Oracle) (ti : Nat)
    (t : Target) (fs : Fs) : Fs × Bool × List Ev :=
  let objs := t.sources.map (objPathIn t.objDirStr)
  match compilePhase g or ti t t.sources fs with
  | (fs', true, evs) => (fs', true, evs)
  | (fs', false, evs) =>
    if needs_link fs' reg t objs then
      match or (link_cmd g reg t objs) fs' with
      | (rc, fs'') => (fs'', rc ≠ 0, evs ++ [Ev.link ti])
    else (fs', false, evs)

/-- Driver state of one `run`: the filesystem, the command memoization, the
`visited` / `in_stack` bit vectors and the `error_flag`.  `fuelOut` is a
modelling artifact marking exhaustion of the recursion fuel; the C recursion
always terminates (each level marks one more `in_stack` bit), and the fuel
supplied by `cbuild_run` is proven large enough below. -/
structure BuildSt where
  fs : Fs
  cmdSt : CmdState
  visited : Nat → Bool
  in_stack : Nat → Bool
  err : Bool
  fuelOut : Bool

/-- Driver state at the start of a dispatch (`calloc`ed bit vectors). -/
def BuildSt.start (fs : Fs) (cst : CmdState) : BuildSt :=
  ⟨fs, cst, fun _ => false, fun _ => false, false, false⟩

mutual

/-- `dfs_build_func(t, error_flag)`:

```
locate t's index ti (−1 when not in the registry: return);
if (*error_flag) return;
if (in_stack[ti]) { report circular dependency; *error_flag = 1; return; }
if (visited[ti]) return;
in_stack[ti] = 1;
for pre-commands: dfs_command_func; on error { in_stack[ti] = 0; return; }
for target-deps: dfs_build_func;   on error { in_stack[ti] = 0; return; }
build_target(t, error_flag);
for post-commands: dfs_command_func; on error { in_stack[ti] = 0; return; }
visited[ti] = 1; in_stack[ti] = 0;
```

Note the C quirk mirrored here: the error flag is only re-checked inside the
post-command loop, so a target with a failed build step and an empty
post-command list is still marked `visited`. -/
def dfsBuild (g : Globals) (reg : List Target) (cmds : List Cmd) (or : Oracle)
    (cmdFuel : Nat) : Nat → Nat → BuildSt → BuildSt × List Ev
  | 0, _, st => ({ st with err := true, fuelOut := true }, [])
  | fuel + 1, ti, st =>
    match reg.get? ti with
    | none => (st, [])
    | some t =>
      if st.err then (st, [])
      else if st.in_stack ti then
        ({ st with err := true }, [Ev.cycleError ti])
      else if st.visited ti then (st, [])
      else
        let st₁ := { st with in_stack := fun j => if j = ti then true else st.in_stack j }
        match dfsCmdDeps cmds or cmdFuel t.commands st₁.cmdSt st₁.fs false with
        | (cst₂, fs₂, true, ctr) =>
          ({ st₁ with
                cmdSt := cst₂
                fs := fs₂
                err := true
                in_stack := fun j => if j = ti then false else st₁.in_stack j },
           ctr.map Ev.cmdExec)
        | (cst₂, fs₂, false, ctr) =>
          let st₂ := { st₁ with cmdSt := cst₂, fs := fs₂ }
          match dfsBuildDeps g reg cmds or cmdFuel fuel t.dependencies st₂ with
          | (st₃, devs) =>
            if st₃.err then
              ({ st₃ with
                    in_stack := fun j => if j = ti then false else st₃.in_stack j },
               ctr.map Ev.cmdExec ++ devs)
            else
              match build_target g reg or ti t st₃.fs with
              | (fs₄, berr, bevs) =>
                let st₄ := { st₃ with fs := fs₄, err := berr }
                match dfsCmdDeps cmds or cmdFuel t.post_commands st₄.cmdSt st₄.fs st₄.err with
                | (cst₅, fs₅, e₅, ptr) =>
                  if t.post_commands ≠ [] ∧ e₅ then
                    ({ st₄ with
                          cmdSt := cst₅
                          fs := fs₅
                          err := e₅
                          in_stack := fun j => if j = ti then false else st₄.in_stack j },
                     ctr.map Ev.cmdExec ++ devs ++ Ev.buildTgt ti :: bevs ++ ptr.map Ev.cmdExec)
                  else
                    ({ st₄ with
                          cmdSt := cst₅
                          fs := fs₅
                          err := e₅
                          visited := fun j => if j = ti then true else st₄.visited j
                          in_stack := fun j => if j = ti then false else st₄.in_stack j },
                     ctr.map Ev.cmdExec ++ devs ++ Ev.buildTgt ti :: bevs ++ ptr.map Ev.cmdExec)
termination_by fuel ti st => (fuel, 0)

/-- The target-dependency loop of `dfs_build_func` (early exit on error). -/
def dfsBuildDeps (g : Globals) (reg : List Target) (cmds : List Cmd) (or : Oracle)
    (cmdFuel : Nat) : Nat → List Nat → BuildSt → BuildSt × List Ev
  | _, [], st => (st, [])
  | fuel, d :: ds, st =>
    match dfsBuild g reg cmds or cmdFuel fuel d st with
    | (st', evs) =>
      if st'.err then (st', evs)
      else
        match dfsBuildDeps g reg cmds or cmdFuel fuel ds st' with
        | (st'', evs') => (st'', evs ++ evs')
termination_by fuel ds st => (fuel, ds.length + 1)

end

/-- A registered subcommand (`cbuild_subcommand_t`); the user callback is
external code and contributes exit code `0`, so only its absence matters. -/
structure Subcommand where
  name : String
  target : Nat
  command_line : Option String
deriving DecidableEq, Repr

/-- A subproject as far as `cbuild_run` consults it (the `clean` branch).
The C field `alias` is spelled `alias_name` here (`alias` is reserved). -/
structure Subproject where
  alias_name : String
  directory : String
  cbuild_exe : String
deriving DecidableEq, Repr

/-- The whole process-global registry at the time `cbuild_run` is entered,
with `Globals` already holding the `cbuild_init` defaults. -/
structure Config where
  g : Globals
  targets : List Target
  cmds : List Cmd
  subcommands : List Subcommand
  subprojects : List Subproject

/-- `remove_dir_recursive` on the mtime view: every path at or under `dir`
stops stat-ing. -/
def removeDirFs (dir : String) (fs : Fs) : Fs :=
  fun p => if p = dir ∨ (dir ++ "/").isPrefixOf p then none else fs p

/-- `remove_file` on the mtime view. -/
def removeFileFs (path : String) (fs : Fs) : Fs :=
  fun p => if p = path then none else fs p

/-- One subproject of the `clean` branch: spawn
`cd '<dir>' && '<exe>' clean` (its failure is only a warning). -/
def cleanStep (or : Oracle) (acc : Fs × List Ev) (sub : Subproject) :
    Fs × List Ev :=
  let line := "cd '" ++ sub.directory ++ "' && '" ++ sub.cbuild_exe ++ "' clean"
  match or line acc.1 with
  | (_, fs') => (fs', acc.2 ++ [Ev.shell line])

/-- The `clean` branch of `cbuild_run`: run `cd '<dir>' && '<exe>' clean`
for each subproject (failures are warnings), then delete each target's
`obj_dir` and output file, then delete the output directory; returns 0. -/
def cleanBranch (cfg : Config) (or : Oracle) (fs : Fs) : Int × List Ev :=
  match cfg.subprojects.foldl (cleanStep or) (fs, []) with
  | (fs₁, evs) =>
    let fs₂ := cfg.targets.foldl (fun f t =>
      let f := match t.obj_dir with | some d => removeDirFs d f | none => f
      match t.output_file with | some o => removeFileFs o f | none => f) fs₁
    let _ := removeDirFs cfg.g.output_dir fs₂
    (0, evs)

/-- The top-level loop of the default verb: visit every not-yet-visited
target in registration order, stopping at the first error. -/
def buildLoop (g : Globals) (reg : List Target) (cmds : List Cmd) (or : Oracle)
    (dfsFuel cmdFuel : Nat) : List Nat → BuildSt → BuildSt × List Ev
  | [], st => (st, [])
  | i :: rest, st =>
    if st.visited i then buildLoop g reg cmds or dfsFuel cmdFuel rest st
    else
      match dfsBuild g reg cmds or cmdFuel dfsFuel i st with
      | (st', evs) =>
        if st'.err then (st', evs)
        else
          match buildLoop g reg cmds or dfsFuel cmdFuel rest st' with
          | (st'', evs') => (st'', evs ++ evs')

/-- The default verb of `cbuild_run`: build every registered target in
registration order; exit 0 iff no error was flagged.  (On success the C code
additionally dumps `compile_commands.json`, which spawns no subprocess.) -/
def defaultBuild (cfg : Config) (or : Oracle) (fs : Fs) (cst : CmdState) :
    Int × List Ev :=
  match buildLoop cfg.g cfg.targets cfg.cmds or (cfg.targets.length + 1)
      (cfg.cmds.length + 1) (List.range cfg.targets.length)
      (BuildSt.start fs cst) with
  | (st, evs) => (if st.err then 1 else 0, evs)

/-- `cbuild_run(argc, argv)` after `cbuild_init`; `args` is `argv[1..]` and
`cst` the process-wide command memoization (all-fresh at process start).
Dispatch order as in the C source: `--manifest`, then `clean`, then the
registered subcommands, then the default full build.  The compile-commands
index reset and pre-collection that precede the dispatch spawn no subprocess
and print nothing. -/
def cbuild_run (cfg : Config) (or : Oracle) (args : List String) (fs : Fs)
    (cst : CmdState) : Int × List Ev :=
  match args with
  | arg1 :: _ =>
    if arg1 = "--manifest" then
      (0, (manifestLines cfg.targets).map Ev.stdoutLine)
    else if arg1 = "clean" then
      cleanBranch cfg or fs
    else
      match cfg.subcommands.find? (fun sc => sc.name = arg1) with
      | some sc =>
        match dfsBuild cfg.g cfg.targets cfg.cmds or (cfg.cmds.length + 1)
            (cfg.targets.length + 1) sc.target (BuildSt.start fs cst) with
        | (st, evs) =>
          if st.err then (1, evs)
          else
            match sc.command_line with
            | some cl =>
              match or cl st.fs with
              | (rc, _) => (rc, evs ++ [Ev.shell cl])
            | none => (0, evs)
      | none => defaultBuild cfg or fs cst
  | [] => defaultBuild cfg or fs cst

/-! ## Registration / mutation entry points and null arguments

The C mutators receive raw pointers.  A call either returns normally
(`CCall.ret`, carrying the possibly-updated target) or dereferences a null
pointer — undefined behavior, modelled as `CCall.nullDeref`.  Each function
below mirrors the exact order of checks and dereferences of its C
counterpart. -/

/-- Outcome of one C entry-point call on possibly-null arguments. -/
inductive CCall (α : Type) where
  | ret (a : α)
  | nullDeref
deriving DecidableEq, Repr

/-- `strchr(s, '*') || strchr(s, '?')`. -/
def hasWildcard (s : String) : Bool :=
  s.data.contains '*' || s.data.contains '?'

/-- `cbuild_add_source`: the wildcard test on `source_file` runs first; the
non-wildcard path and the successful-expansion path then dereference
`target` (no null check), while a failed or empty expansion only prints a
warning.  `expand` abstracts `cbuild_expand_wildcard` (`none` = error). -/
def cbuild_add_source (expand : String → Option (List String))
    (target : Option Target) (source_file : String) : CCall (Option Target) :=
  if hasWildcard source_file then
    match expand source_file with
    | some files =>
      if files.length > 0 then
        match target with
        | none => CCall.nullDeref
        | some t => CCall.ret (some { t with sources := t.sources ++ files })
      else CCall.ret target
    | none => CCall.ret target
  else
    match target with
    | none => CCall.nullDeref
    | some t => CCall.ret (some { t with sources := t.sources ++ [source_file] })

/-- `cbuild_target_link_library(dependant, dependency)`: guarded by
`if (dependency)` only — the dependant is dereferenced unchecked when the
dependency is non-null.  The dependency is an arena index here. -/
def cbuild_target_link_library (dependant : Option Target)
    (dependency : Option Nat) : CCall (Option Target) :=
  match dependency with
  | none => CCall.ret dependant
  | some dep =>
    match dependant with
    | none => CCall.nullDeref
    | some t => CCall.ret (some { t with dependencies := t.dependencies ++ [dep] })

/-- `cbuild_target_add_command`: `if (!target || !cmd) return;`. -/
def cbuild_target_add_command (target : Option Target) (cmd : Option Nat) :
    CCall (Option Target) :=
  match target, cmd with
  | some t, some c => CCall.ret (some { t with commands := t.commands ++ [c] })
  | _, _ => CCall.ret target

/-- `cbuild_target_add_post_command`: `if (!target || !cmd) return;`. -/
def cbuild_target_add_post_command (target : Option Target) (cmd : Option Nat) :
    CCall (Option Target) :=
  match target, cmd with
  | some t, some c => CCall.ret (some { t with post_commands := t.post_commands ++ [c] })
  | _, _ => CCall.ret target

/-- `cbuild_target_add_cflags`: `if (!target || !cflags) return;`, then
either initialize or append with a space separator. -/
def cbuild_target_add_cflags (target : Option Target) (cflags : Option String) :
    CCall (Option Target) :=
  match target, cflags with
  | some t, some cf =>
    CCall.ret (some { t with cflags :=
      match t.cflags with
      | none => some cf
      | some old => some (old ++ " " ++ cf) })
  | _, _ => CCall.ret target

/-- `cbuild_command_add_dependency`: `if (!cmd || !dependency) return;`. -/
def cbuild_command_add_dependency (cmd : Option Cmd) (dependency : Option Nat) :
    CCall (Option Cmd) :=
  match cmd, dependency with
  | some c, some d => CCall.ret (some { c with dependencies := c.dependencies ++ [d] })
  | _, _ => CCall.ret cmd

/-- `cbuild_add_define`: guarded by `if (t && macro)`. -/
def cbuild_add_define (target : Option Target) (mac : Option String) :
    CCall (Option Target) :=
  match target, mac with
  | some t, some m => CCall.ret (some { t with defines := t.defines ++ [m] })
  | _, _ => CCall.ret target

/-- `cbuild_add_define_val`: guarded by `if (t && macro)`; a null value
falls back to the bare macro (`cbuild__add_define_to_list`). -/
def cbuild_add_define_val (target : Option Target) (mac : Option String)
    (val : Option String) : CCall (Option Target) :=
  match target, mac with
  | some t, some m =>
    CCall.ret (some { t with defines := t.defines ++
      [match val with | some v => m ++ "=" ++ v | none => m] })
  | _, _ => CCall.ret target

/-- Concatenation of a list of strings (used by the spec-side compile-line
description). -/
def strConcat (l : List String) : String := l.foldr (fun a b => a ++ b) ""

/-! ## Spec-side definitions

These two definitions follow the *specification's words* (not the source);
the theorems below compare them with the source-derived definitions. -/

/-- The compile line as §4.D of the spec words it for the GCC-like family:
the quoted compiler, `-c -o "<obj>"`, then per-target cflags if set
(non-empty) else the global cflags, then the include dirs as `-I"<p>"` in
insertion order, then the global defines followed by the per-target defines
as `-D<m>`, and finally the quoted source. -/
def specCompileLine (g : Globals) (t : Target) (src obj : String) : String :=
  "\"" ++ g.cc ++ "\" " ++ "-c -o \"" ++ obj ++ "\" "
  ++ (match t.cflags with
      | some c =>
        if c.length > 0 then c ++ " "
        else match g.global_cflags with
          | some gc => gc ++ " "
          | none => ""
      | none =>
        match g.global_cflags with
        | some gc => gc ++ " "
        | none => "")
  ++ strConcat (t.include_dirs.map (fun p => "-I\"" ++ p ++ "\" "))
  ++ strConcat ((g.global_defines ++ t.defines).map (fun m => "-D" ++ m ++ " "))
  ++ "\"" ++ src ++ "\""

/-- Link staleness as the claim words it: the output is missing, or some
object file of the target has mtime strictly greater than the output's, or
some target-dependency has an output whose mtime is strictly greater than
the output's. -/
def LinkStaleSpec (fs : Fs) (reg : List Target) (t : Target)
    (objs : List String) (out : String) : Prop :=
  fs out = none ∨
  (∃ mo, fs out = some mo ∧
    ((∃ o ∈ objs, ∃ m, fs o = some m ∧ m > mo) ∨
     (∃ di ∈ t.dependencies, ∃ dep, reg.get? di = some dep ∧
        ∃ dout, dep.output_file = some dout ∧ ∃ m, fs dout = some m ∧ m > mo)))

/-! ## Concrete fixtures used by witnesses and counterexamples -/

/-- The `cbuild_init` defaults on Linux: output dir `build`, compiler `cc`,
archiver `ar`, linker = compiler. -/
def gW : Globals :=
  { output_dir := "build", cc := "cc", ar := "ar", ld := "cc"
    global_cflags := none, global_ldflags := none, global_defines := [] }

/-- An environment where every spawned process succeeds and leaves the
filesystem unchanged. -/
def orW0 : Oracle := fun _ fs => (0, fs)

/-- The empty filesystem. -/
def fsNone : Fs := fun _ => none

/-- A filesystem where source and object carry the same mtime. -/
def fsC3 : Fs := fun p =>
  if p = "math.c" then some 5
  else if p = "build/obj_math/math.o" then some 5
  else none

/-- An executable target whose only source has been deleted. -/
def tC10 : Target :=
  { type := .executable, name := some "app", sources := ["gone.c"]
    output_file := some "build/app", obj_dir := some "build/obj_app" }

/-- A static-library target with one source, an include dir and a define. -/
def tC8 : Target :=
  { type := .static_lib, name := some "math", sources := ["src/math.c"]
    include_dirs := ["include"], defines := ["FOO=1"]
    output_file := some "build/libmath.a", obj_dir := some "build/obj_math" }

/-- The auto-created build command of a subproject aliased `math` in `lib`. -/
def cmdC1 : Cmd :=
  { name := "build subproject math", command_line := "cd 'lib' && './cbuild'"
    dependencies := [] }

/-- A sourceless executable target (used to exercise the link decision). -/
def tC4 : Target :=
  { type := .executable, name := some "app", sources := []
    output_file := some "build/app", obj_dir := some "build/obj_app" }

/-- A configuration with one registered subcommand named `test`. -/
def cfgC9 : Config :=
  { g := gW, targets := [], cmds := []
    subcommands := [{ name := "test", target := 0, command_line := some "./run-tests" }]
    subprojects := [] }

/-- A configuration whose single target runs the same pre-build command
twice (command 0 is reachable through two edges). -/
def cfgC5 : Config :=
  { g := gW
    targets := [{ type := .executable, name := some "app", sources := []
                  output_file := some "build/app", obj_dir := some "build/obj_app"
                  commands := [0, 0] }]
    cmds := [{ name := "gen", command_line := "./gen.sh", dependencies := [] }]
    subcommands := []
    subprojects := [] }

/-- A memo state where command 0 has already executed with result 0. -/
def stC5 : CmdState := ⟨fun i => i == 0, fun _ => 0⟩

/-- Two single-source-less static libraries that depend on each other. -/
def cfgC6 : Config :=
  { g := gW
    targets :=
      [{ type := .static_lib, name := some "a", sources := []
         output_file := some "build/liba.a", obj_dir := some "build/obj_a"
         dependencies := [1] },
       { type := .static_lib, name := some "b", sources := []
         output_file := some "build/libb.a", obj_dir := some "build/obj_b"
         dependencies := [0] }]
    cmds := []
    subcommands := []
    subprojects := [] }

/-- Correctness of one memo-state transition with spawn trace `tr`. -/
def CmdOk (st st' : CmdState) (tr : List Nat) : Prop :=
  (∀ x, st.executed x = true → st'.executed x = true ∧ st'.result x = st.result x) ∧
  (∀ x, st.executed x = true → x ∉ tr) ∧
  tr.Nodup ∧
  (∀ x ∈ tr, st'.executed x = true)

/-- The command-spawn trace of an event list: the arena indices of the
Command shell lines it contains, in order. -/
def cmdTraceOf (evs : List Ev) : List Nat :=
  evs.filterMap (fun e =>
    match e with
    | Ev.cmdExec c => some c
    | _ => none)

/-- A memo state is dependency-closed when every executed command's
dependencies are themselves executed with cached result 0 — the shape every
state reachable from a fresh run has, since a command only executes after
all its dependencies returned 0. -/
def ExecClosed (cmds : List Cmd) (st : CmdState) : Prop :=
  ∀ i ci, st.executed i = true → cmds.get? i = some ci →
    ∀ d ∈ ci.dependencies, st.executed d = true ∧ st.result d = 0

/-- Every cached command result is 0 (true of a fresh process and preserved
under an all-succeeding oracle). -/
def ResultsZero (st : CmdState) : Prop := ∀ x, st.result x = 0

/-- Neither A nor B has been marked visited. -/
def VFree (A B : Nat) (st : BuildSt) : Prop :=
  st.visited A = false ∧ st.visited B = false

/-- Number of registry slots whose `in_stack` bit is clear. -/
def freeCountF (n : Nat) (f : Nat → Bool) : Nat :=
  ((Finset.range n).filter (fun i => f i = false)).card

/-! # Theorems -/

/-! ## Shared helper lemmas -/

theorem strConcat_cons (s : String) (l : List String) :
    strConcat (s :: l) = s ++ strConcat l := rfl

theorem strConcat_append (l₁ l₂ : List String) :
    strConcat (l₁ ++ l₂) = strConcat l₁ ++ strConcat l₂ := by
  induction l₁ with
  | nil => simp [strConcat, String.empty_append]
  | cons x xs ih =>
    simp only [List.cons_append, strConcat_cons, ih, String.append_assoc]

theorem foldl_strConcat {α : Type} (f : α → String) (l : List α) (init : String) :
    l.foldl (fun acc x => acc ++ f x) init = init ++ strConcat (l.map f) := by
  induction l generalizing init with
  | nil => simp [strConcat, String.append_empty]
  | cons x xs ih =>
    simp only [List.foldl_cons, List.map_cons, strConcat_cons]
    rw [ih, String.append_assoc]

/-! ## C3: the freshness oracle is a pure strict-mtime comparison -/

/-- **C3.** For an existing source `S` with object `O`: `need_recompile`
answers `true` exactly when `O` is missing or `S`'s mtime is strictly newer
than `O`'s; equal mtimes are fresh; and the `.d` dependency file passed as
third argument is never consulted. -/
theorem c3_need_recompile_mtime_only (fs : Fs) (src obj dep : String) (ms : Nat)
    (hsrc : fs src = some ms) :
    (∀ dep', need_recompile fs src obj dep' = need_recompile fs src obj dep) ∧
    (need_recompile fs src obj dep = true ↔
      fs obj = none ∨ ∃ mo, fs obj = some mo ∧ ms > mo) ∧
    (∀ mo, fs obj = some mo → ms = mo → need_recompile fs src obj dep = false) := by
  refine ⟨fun _ => rfl, ?_, ?_⟩
  · unfold need_recompile
    rw [hsrc]
    cases h : fs obj with
    | none => simp
    | some mo => simp [h]
  · intro mo h he
    unfold need_recompile
    rw [hsrc, h, he]
    simp

/-- Witness for C3: with equal mtimes the pair is fresh. -/
theorem c3_witness :
    need_recompile fsC3 "math.c" "build/obj_math/math.o" "build/obj_math/math.o.d"
      = false :=
  (c3_need_recompile_mtime_only fsC3 "math.c" "build/obj_math/math.o"
      "build/obj_math/math.o.d" 5 (by decide)).2.2 5 (by decide) rfl

/-! ## C7: shape of the GCC-like compile line -/

/-- **C7.** For the GCC-like family (the non-`_WIN32` branch of
`compile_source`), the synthesized compile line is exactly: the quoted
compiler, `-c -o "<obj>"`, the per-target cflags if set (non-empty) else the
global cflags, the include dirs as `-I"<p>"` in insertion order, the global
defines followed by the per-target defines as `-D<m>`, and the quoted
source — as described by `specCompileLine`. -/
theorem c7_compile_line_shape (g : Globals) (t : Target) (src obj : String) :
    compile_source_cmd g t src obj = specCompileLine g t src obj := by
  unfold compile_source_cmd specCompileLine
  cases hc : t.cflags with
  | none =>
    cases hg : g.global_cflags <;>
      simp [String.append_assoc, foldl_strConcat, List.map_append, strConcat_append,
        String.append_empty, String.empty_append]
  | some c =>
    by_cases hlen : c.length > 0
    · simp [hlen, String.append_assoc, foldl_strConcat, List.map_append, strConcat_append,
        String.append_empty, String.empty_append]
    · cases hg : g.global_cflags <;>
        simp [hlen, String.append_assoc, foldl_strConcat, List.map_append, strConcat_append,
          String.append_empty, String.empty_append]

/-! ## C8: the compile-commands index records the scheduler's line -/

/-- **C8.** Every entry the exporter records for a target carries a command
string byte-identical to the compile line the scheduler would run for that
entry's source file (same compiler, flags, defines, include dirs and object
directory). -/
theorem c8_index_matches_scheduler (g : Globals) (cwd : String) (t : Target) :
    ∀ e ∈ collect_compile_commands_for_target g cwd t,
      e.command = compile_source_cmd g t e.file (objPathIn t.objDirStr e.file) := by
  intro e he
  unfold collect_compile_commands_for_target at he
  obtain ⟨src, _, rfl⟩ := List.mem_map.mp he
  rfl

/-- Witness for C8 at a concrete target and source. -/
theorem c8_witness :
    (CcEntry.mk "/work" (collect_cc_cmd gW tC8 "src/math.c") "src/math.c").command
      = compile_source_cmd gW tC8 "src/math.c" (objPathIn tC8.objDirStr "src/math.c") :=
  c8_index_matches_scheduler gW "/work" tC8
    ⟨"/work", collect_cc_cmd gW tC8 "src/math.c", "src/math.c"⟩
    (by simp [collect_compile_commands_for_target, tC8])

/-! ## C2: null arguments to registration / mutation entry points -/

/-- **C2 (counterexample).** The claim says every mutation entry point
silently ignores a null target.  It is false: `cbuild_add_source` with a
null target (non-wildcard path) dereferences the null pointer, and so does
`cbuild_target_link_library` with a null dependant and a non-null
dependency. -/
theorem c2_counterexample :
    cbuild_add_source (fun _ => none) none "main.c" = CCall.nullDeref ∧
    cbuild_target_link_library none (some 0) = CCall.nullDeref :=
  ⟨rfl, rfl⟩

/-- **C2 (amended).** Null handling is per-function: the mutators that
check their arguments (`cbuild_target_add_command`,
`cbuild_target_add_post_command`, `cbuild_target_add_cflags`,
`cbuild_command_add_dependency`, `cbuild_add_define`,
`cbuild_add_define_val`) silently ignore a null target/command, and
`cbuild_target_link_library` silently ignores a null *dependency*; but
`cbuild_add_source` with a null target dereferences it on the non-wildcard
path, and `cbuild_target_link_library` dereferences a null dependant when
the dependency is non-null. -/
theorem c2_amended_null_handling :
    (∀ c, cbuild_target_add_command none c = CCall.ret none) ∧
    (∀ c, cbuild_target_add_post_command none c = CCall.ret none) ∧
    (∀ s, cbuild_target_add_cflags none s = CCall.ret none) ∧
    (∀ d, cbuild_command_add_dependency none d = CCall.ret none) ∧
    (∀ m, cbuild_add_define none m = CCall.ret none) ∧
    (∀ m v, cbuild_add_define_val none m v = CCall.ret none) ∧
    (∀ t, cbuild_target_link_library t none = CCall.ret t) ∧
    (∀ expand src, hasWildcard src = false →
      cbuild_add_source expand none src = CCall.nullDeref) ∧
    (∀ d, cbuild_target_link_library none (some d) = CCall.nullDeref) := by
  refine ⟨fun c => ?_, fun c => ?_, fun s => ?_, fun d => ?_, fun m => ?_,
    fun m v => ?_, fun t => ?_, fun expand src h => ?_, fun d => ?_⟩
  · cases c <;> rfl
  · cases c <;> rfl
  · cases s <;> rfl
  · cases d <;> rfl
  · cases m <;> rfl
  · cases m <;> rfl
  · rfl
  · simp [cbuild_add_source, h]
  · rfl

/-- Witness for C2 (amended), at concrete arguments. -/
theorem c2_witness :
    cbuild_add_source (fun _ => some []) none "x.c" = CCall.nullDeref :=
  c2_amended_null_handling.2.2.2.2.2.2.2.1 (fun _ => some []) "x.c" (by decide)

/-! ## C1: the manifest branch and proxy targets -/

/-- **C1 (the code at the failing input).** The manifest filter
(`!t->output_file || !t->name`) does *not* exclude proxy targets: a proxy
created by `cbuild_subproject_get_target` carries a name
(`<alias>_<target>`), an output path under the subproject directory and one
of the three printable kinds, so `--manifest` prints it.  Here the proxy for
record `static_lib math build/libmath.a` of subproject `math` in directory
`lib` is printed, contradicting the claim (and the comment in the C source)
that proxies never appear in the manifest. -/
theorem c1_manifest_prints_proxy :
    (mkProxyTarget "lib" "math" "math" "static_lib" "build/libmath.a" 0).map
      (fun proxy =>
        cbuild_run
          { g := gW, targets := [proxy], cmds := [cmdC1]
            subcommands := [], subprojects := [] }
          orW0 ["--manifest"] fsNone CmdState.init)
      = some (0, [Ev.stdoutLine "static_lib math_math lib/build/libmath.a"]) := by
  rfl

/-! ## C9: unknown first argument falls through to the default build -/

/-- **C9.** A first argument that is neither `--manifest` nor `clean` nor a
registered subcommand name leaves `cbuild_run` on the default path: the run
is identical (exit code and observable events) to a run with no arguments,
and in particular no error is reported for the unrecognized argument. -/
theorem c9_unknown_arg_builds_all (cfg : Config) (or : Oracle) (fs : Fs)
    (cst : CmdState) (a : String) (rest : List String)
    (h1 : a ≠ "--manifest") (h2 : a ≠ "clean")
    (h3 : ∀ sc ∈ cfg.subcommands, sc.name ≠ a) :
    cbuild_run cfg or (a :: rest) fs cst = cbuild_run cfg or [] fs cst := by
  have hf : cfg.subcommands.find? (fun sc => sc.name = a) = none := by
    rw [List.find?_eq_none]
    intro sc hsc
    simpa using h3 sc hsc
  simp [cbuild_run, h1, h2, hf]

/-- Witness for C9: the unrecognized verb `frobnicate` behaves like the
no-argument full build on a configuration with a registered `test`
subcommand. -/
theorem c9_witness :
    cbuild_run cfgC9 orW0 ["frobnicate"] fsNone CmdState.init
      = cbuild_run cfgC9 orW0 [] fsNone CmdState.init :=
  c9_unknown_arg_builds_all cfgC9 orW0 fsNone CmdState.init "frobnicate" []
    (by decide) (by decide)
    (by intro sc hsc; simp [cfgC9] at hsc; simp [hsc])

/-! ## C10: a missing source always recompiles -/

/-- Sequencing lemma for the compile loop: a successfully completed prefix
composes with the remainder of the source list. -/
theorem compilePhase_append (g : Globals) (or : Oracle) (ti : Nat) (t : Target)
    (l₁ l₂ : List String) (fs fs' : Fs) (evs : List Ev)
    (h : compilePhase g or ti t l₁ fs = (fs', false, evs)) :
    compilePhase g or ti t (l₁ ++ l₂) fs =
      ((compilePhase g or ti t l₂ fs').1,
       (compilePhase g or ti t l₂ fs').2.1,
       evs ++ (compilePhase g or ti t l₂ fs').2.2) := by
  induction l₁ generalizing fs evs with
  | nil =>
    simp only [compilePhase, Prod.mk.injEq] at h
    obtain ⟨rfl, -, rfl⟩ := h
    simp
  | cons src rest ih =>
    by_cases hrec : need_recompile fs src (objPathIn t.objDirStr src)
        (depPathIn t.objDirStr src)
    · rcases hor : or (compile_source_cmd g t src (objPathIn t.objDirStr src)) fs
        with ⟨rc, fs₁⟩
      simp only [List.cons_append, List.append_eq, compilePhase, hrec, if_true, hor] at h ⊢
      by_cases hrc : rc ≠ 0
      · rw [if_pos hrc] at h
        exact absurd (congrArg (fun p => p.2.1) h) (by simp)
      · rw [if_neg hrc] at h ⊢
        rcases hcp : compilePhase g or ti t rest fs₁ with ⟨fs₂, e₂, evs₂⟩
        rw [hcp] at h
        have h1 : fs₂ = fs' := congrArg Prod.fst h
        have h2 : e₂ = false := congrArg (fun p => p.2.1) h
        have h3 : Ev.compile ti src :: evs₂ = evs := congrArg (fun p => p.2.2) h
        subst h1 h2
        rw [ih _ _ hcp]
        simp [← h3]
    · simp only [List.cons_append, List.append_eq, compilePhase, hrec, if_false] at h ⊢
      exact ih _ _ h

/-- When the oracle orders a recompile of the head source, the compile loop
records that compile attempt. -/
theorem compilePhase_cons_mem (g : Globals) (or : Oracle) (ti : Nat) (t : Target)
    (src : String) (rest : List String) (fs : Fs)
    (hrec : need_recompile fs src (objPathIn t.objDirStr src)
      (depPathIn t.objDirStr src) = true) :
    Ev.compile ti src ∈ (compilePhase g or ti t (src :: rest) fs).2.2 := by
  rcases hor : or (compile_source_cmd g t src (objPathIn t.objDirStr src)) fs
    with ⟨rc, fs₁⟩
  simp only [compilePhase, hrec, if_true, hor]
  by_cases hrc : rc ≠ 0
  · simp [hrc]
  · rw [if_neg hrc]
    rcases hcp : compilePhase g or ti t rest fs₁ with ⟨fs₂, e₂, evs₂⟩
    simp

/-- Any event of the compile loop is an event of `build_target`. -/
theorem mem_build_target_of_mem_compilePhase (g : Globals) (reg : List Target)
    (or : Oracle) (ti : Nat) (t : Target) (fs : Fs) (e : Ev)
    (h : e ∈ (compilePhase g or ti t t.sources fs).2.2) :
    e ∈ (build_target g reg or ti t fs).2.2 := by
  unfold build_target
  rcases hcp : compilePhase g or ti t t.sources fs with ⟨fs₁, e₁, evs₁⟩
  rw [hcp] at h
  cases e₁ with
  | true => simpa using h
  | false =>
    by_cases hl : needs_link fs₁ reg t (t.sources.map (objPathIn t.objDirStr))
    · rcases hor : or (link_cmd g reg t (t.sources.map (objPathIn t.objDirStr))) fs₁
        with ⟨rc, fs₂⟩
      simp only [hl, if_true, hor]
      simp only [List.mem_append]
      exact Or.inl (by simpa using h)
    · simp only [hl, if_false]
      simpa using h

/-- **C10.** When `stat` fails on the source itself, the freshness oracle
orders a recompile no matter what the object's state is; consequently, once
the compile loop reaches that source (the sources before it compiled
cleanly), a compile subprocess is attempted for it instead of silently
reusing the stale object. -/
theorem c10_missing_source_recompiles (g : Globals) (reg : List Target)
    (or : Oracle) (ti : Nat) (t : Target) (pre rest : List String)
    (src obj dep : String) (fs₀ fs' : Fs) (evs : List Ev)
    (hsrcs : t.sources = pre ++ src :: rest)
    (hpre : compilePhase g or ti t pre fs₀ = (fs', false, evs))
    (hmiss : fs' src = none) :
    need_recompile fs' src obj dep = true ∧
    Ev.compile ti src ∈ (build_target g reg or ti t fs₀).2.2 := by
  have hrec : ∀ o d, need_recompile fs' src o d = true := by
    intro o d
    unfold need_recompile
    rw [hmiss]
  refine ⟨hrec obj dep, ?_⟩
  apply mem_build_target_of_mem_compilePhase
  rw [hsrcs, compilePhase_append g or ti t pre (src :: rest) fs₀ fs' evs hpre]
  simp only [List.mem_append]
  exact Or.inr (compilePhase_cons_mem g or ti t src rest fs' (hrec _ _))

/-- Witness for C10: a target whose single source is deleted attempts (and
here records) a compile step. -/
theorem c10_witness :
    Ev.compile 0 "gone.c" ∈ (build_target gW [] orW0 0 tC10 fsNone).2.2 :=
  (c10_missing_source_recompiles gW [] orW0 0 tC10 [] [] "gone.c"
    "o" "d" fsNone fsNone [] rfl rfl rfl).2

/-! ## C4: the relink decision -/

/-- The compile loop emits only compile events, never a link event. -/
theorem link_not_mem_compilePhase (g : Globals) (or : Oracle) (ti tj : Nat)
    (t : Target) (l : List String) (fs : Fs) :
    Ev.link tj ∉ (compilePhase g or ti t l fs).2.2 := by
  induction l generalizing fs with
  | nil => simp [compilePhase]
  | cons src rest ih =>
    by_cases hrec : need_recompile fs src (objPathIn t.objDirStr src)
        (depPathIn t.objDirStr src)
    · rcases hor : or (compile_source_cmd g t src (objPathIn t.objDirStr src)) fs
        with ⟨rc, fs₁⟩
      simp only [compilePhase, hrec, if_true, hor]
      by_cases hrc : rc ≠ 0
      · simp [hrc]
      · rw [if_neg hrc]
        rcases hcp : compilePhase g or ti t rest fs₁ with ⟨fs₂, e₂, evs₂⟩
        have h := ih fs₁
        rw [hcp] at h
        simpa using h
    · simp only [compilePhase, hrec, if_false]
      exact ih fs

/-- The boolean relink decision coincides with the claim's three-way
staleness condition, provided every object file exists (which is what a
successful compile phase guarantees on a real filesystem). -/
theorem needs_link_iff (fs : Fs) (reg : List Target) (t : Target)
    (objs : List String) (out : String) (hout : t.output_file = some out)
    (hobj : ∀ o ∈ objs, fs o ≠ none) :
    (needs_link fs reg t objs = true ↔ LinkStaleSpec fs reg t objs out) := by
  unfold needs_link LinkStaleSpec
  simp only [hout]
  cases hfo : fs out with
  | none => simp
  | some mo =>
    dsimp only
    by_cases hA : (objs.any (fun o =>
        match fs o with
        | none => true
        | some m => m > mo)) = true
    · rw [if_pos hA]
      simp only [eq_self_iff_true, true_iff]
      refine Or.inr ⟨mo, rfl, Or.inl ?_⟩
      obtain ⟨o, ho, hpred⟩ := List.any_eq_true.mp hA
      refine ⟨o, ho, ?_⟩
      cases hfso : fs o with
      | none => exact absurd hfso (hobj o ho)
      | some m =>
        rw [hfso] at hpred
        exact ⟨m, rfl, by simpa using hpred⟩
    · rw [if_neg hA]
      constructor
      · intro hB
        obtain ⟨di, hdi, hpred⟩ := List.any_eq_true.mp hB
        refine Or.inr ⟨mo, rfl, Or.inr ⟨di, hdi, ?_⟩⟩
        cases hget : reg.get? di with
        | none => rw [hget] at hpred; simp at hpred
        | some dep =>
          rw [hget] at hpred
          dsimp only at hpred
          refine ⟨dep, rfl, ?_⟩
          cases hdo : dep.output_file with
          | none => rw [hdo] at hpred; simp at hpred
          | some dout =>
            rw [hdo] at hpred
            dsimp only at hpred
            cases hfd : fs dout with
            | none => rw [hfd] at hpred; simp at hpred
            | some m =>
              rw [hfd] at hpred
              exact ⟨dout, by simp [hdo], m, by simp [hfd], by simpa using hpred⟩
      · rintro (h | ⟨mo', hmo', hrest⟩)
        · simp at h
        · obtain rfl : mo = mo' := by simpa using hmo'
          rcases hrest with ⟨o, ho, m, hfso, hm⟩ | ⟨di, hdi, dep, hget, dout, hdo, m, hfd, hm⟩
          · exact absurd (List.any_eq_true.mpr ⟨o, ho, by rw [hfso]; simpa using hm⟩) hA
          · refine List.any_eq_true.mpr ⟨di, hdi, ?_⟩
            rw [hget]
            dsimp only
            rw [hdo]
            dsimp only
            rw [hfd]
            simpa using hm

/-- **C4.** For a target whose compile phase succeeded (leaving filesystem
`fs'` with every object present), the archive/link subprocess is spawned
exactly when the output is missing, or some object's mtime is strictly
greater than the output's, or some target-dependency's output mtime is
strictly greater than the output's; otherwise no link subprocess runs. -/
theorem c4_link_exactly_when_stale (g : Globals) (reg : List Target)
    (or : Oracle) (ti : Nat) (t : Target) (fs fs' : Fs) (evs : List Ev)
    (out : String)
    (hcp : compilePhase g or ti t t.sources fs = (fs', false, evs))
    (hout : t.output_file = some out)
    (hobj : ∀ o ∈ t.sources.map (objPathIn t.objDirStr), fs' o ≠ none) :
    (Ev.link ti ∈ (build_target g reg or ti t fs).2.2 ↔
      LinkStaleSpec fs' reg t (t.sources.map (objPathIn t.objDirStr)) out) := by
  have hnl := needs_link_iff fs' reg t (t.sources.map (objPathIn t.objDirStr)) out hout hobj
  have hnot := link_not_mem_compilePhase g or ti ti t t.sources fs
  rw [hcp] at hnot
  simp only at hnot
  unfold build_target
  rw [hcp]
  by_cases hl : needs_link fs' reg t (t.sources.map (objPathIn t.objDirStr)) = true
  · rcases hor : or (link_cmd g reg t (t.sources.map (objPathIn t.objDirStr))) fs'
      with ⟨rc, fs₂⟩
    simp only [hl, if_true, hor]
    simp [hnl.mp hl]
  · simp only [hl, if_false]
    constructor
    · intro hmem
      exact absurd (by simpa using hmem) hnot
    · intro hspec
      exact absurd (hnl.mpr hspec) hl

/-- Witness for C4: a sourceless executable whose output does not exist yet
is linked. -/
theorem c4_witness :
    Ev.link 0 ∈ (build_target gW [] orW0 0 tC4 fsNone).2.2 :=
  (c4_link_exactly_when_stale gW [] orW0 0 tC4 fsNone fsNone [] "build/app"
    rfl rfl (by simp [tC4])).mpr (Or.inl rfl)

/-! ## C5: each command's shell line runs at most once per `run`

The framework: `CmdOk st st' tr` says that a step of the machine turned the
command memo state `st` into `st'` while spawning the shell lines listed in
`tr`, and that this step (i) never unmarks an executed command or changes
its cached result, (ii) never spawns an already-executed command, (iii)
spawns no command twice, and (iv) leaves everything it spawned marked
executed.  Every piece of the driver satisfies it, and it composes. -/

theorem CmdOk.refl (st : CmdState) : CmdOk st st [] :=
  ⟨fun _ h => ⟨h, rfl⟩, fun _ _ => List.not_mem_nil _, List.nodup_nil, fun _ h => absurd h (List.not_mem_nil _)⟩

theorem CmdOk.trans {st₁ st₂ st₃ : CmdState} {tr₁ tr₂ : List Nat}
    (h₁ : CmdOk st₁ st₂ tr₁) (h₂ : CmdOk st₂ st₃ tr₂) :
    CmdOk st₁ st₃ (tr₁ ++ tr₂) := by
  obtain ⟨m₁, f₁, n₁, e₁⟩ := h₁
  obtain ⟨m₂, f₂, n₂, e₂⟩ := h₂
  refine ⟨?_, ?_, ?_, ?_⟩
  · intro x hx
    obtain ⟨hx₂, hr₂⟩ := m₁ x hx
    obtain ⟨hx₃, hr₃⟩ := m₂ x hx₂
    exact ⟨hx₃, hr₃.trans hr₂⟩
  · intro x hx
    simp only [List.mem_append, not_or]
    exact ⟨f₁ x hx, f₂ x (m₁ x hx).1⟩
  · refine List.Nodup.append n₁ n₂ ?_
    intro x hx₁ hx₂
    exact f₂ x (e₁ x hx₁) hx₂
  · intro x hx
    rcases List.mem_append.mp hx with h | h
    · exact (m₂ x (e₁ x h)).1
    · exact e₂ x h

theorem CmdOk.mark {st : CmdState} {i : Nat} {rc : Int}
    (h : st.executed i = false) : CmdOk st (st.mark i rc) [i] := by
  refine ⟨?_, ?_, List.nodup_singleton i, ?_⟩
  · intro x hx
    have hne : x ≠ i := fun he => by rw [he] at hx; rw [hx] at h; cases h
    constructor
    · simp [CmdState.mark, hne]
      exact hx
    · simp [CmdState.mark, hne]
  · intro x hx
    have hne : x ≠ i := fun he => by rw [he] at hx; rw [hx] at h; cases h
    simp [hne]
  · intro x hx
    obtain rfl := List.mem_singleton.mp hx
    simp [CmdState.mark]

/-- The dependency loop inherits `CmdOk` from the calls it makes. -/
theorem runCmdDeps_ok_of (cmds : List Cmd) (or : Oracle) (fuel : Nat)
    (hrun : ∀ i st fs st' fs' rc tr,
      runCmd cmds or fuel i st fs = (st', fs', rc, tr) → CmdOk st st' tr) :
    ∀ (ds : List Nat) (st : CmdState) (fs : Fs) st' fs' r tr,
      runCmdDeps cmds or fuel ds st fs = (st', fs', r, tr) → CmdOk st st' tr := by
  intro ds
  induction ds with
  | nil =>
    intro st fs st' fs' r tr h
    simp only [runCmdDeps, Prod.mk.injEq] at h
    obtain ⟨rfl, -, -, rfl⟩ := h
    exact CmdOk.refl st
  | cons d ds ih =>
    intro st fs st' fs' r tr h
    rcases hr : runCmd cmds or fuel d st fs with ⟨st₁, fs₁, rc, tr₁⟩
    have h1 := hrun d st fs st₁ fs₁ rc tr₁ hr
    simp only [runCmdDeps, hr] at h
    by_cases hrc : rc ≠ 0
    · rw [if_pos hrc] at h
      simp only [Prod.mk.injEq] at h
      obtain ⟨rfl, -, -, rfl⟩ := h
      exact h1
    · rw [if_neg hrc] at h
      rcases hd : runCmdDeps cmds or fuel ds st₁ fs₁ with ⟨st₂, fs₂, r₂, tr₂⟩
      have h2 := ih st₁ fs₁ st₂ fs₂ r₂ tr₂ hd
      rw [hd] at h
      simp only [Prod.mk.injEq] at h
      obtain ⟨rfl, -, -, rfl⟩ := h
      exact h1.trans h2

/-- `cbuild_run_command` satisfies `CmdOk`: it never re-spawns an executed
command, never disturbs a cached result, and spawns each command at most
once. -/
theorem runCmd_ok (cmds : List Cmd) (or : Oracle) :
    ∀ (fuel : Nat) (i : Nat) (st : CmdState) (fs : Fs) st' fs' rc tr,
      runCmd cmds or fuel i st fs = (st', fs', rc, tr) → CmdOk st st' tr := by
  intro fuel
  induction fuel with
  | zero =>
    intro i st fs st' fs' rc tr h
    simp only [runCmd, Prod.mk.injEq] at h
    obtain ⟨rfl, -, -, rfl⟩ := h
    exact CmdOk.refl st
  | succ fuel ih =>
    intro i st fs st' fs' rc tr h
    simp only [runCmd] at h
    cases hget : cmds.get? i with
    | none =>
      rw [hget] at h
      simp only [Prod.mk.injEq] at h
      obtain ⟨rfl, -, -, rfl⟩ := h
      exact CmdOk.refl st
    | some c =>
      rw [hget] at h
      dsimp only at h
      rcases hd : runCmdDeps cmds or fuel c.dependencies st fs with ⟨st₁, fs₁, r₁, tr₁⟩
      have h1 := runCmdDeps_ok_of cmds or fuel ih c.dependencies st fs st₁ fs₁ r₁ tr₁ hd
      rw [hd] at h
      cases r₁ with
      | some rc₁ =>
        dsimp only at h
        simp only [Prod.mk.injEq] at h
        obtain ⟨rfl, -, -, rfl⟩ := h
        exact h1
      | none =>
        dsimp only at h
        by_cases hex : st₁.executed i
        · rw [if_pos hex] at h
          simp only [Prod.mk.injEq] at h
          obtain ⟨rfl, -, -, rfl⟩ := h
          exact h1
        · rw [if_neg hex] at h
          rcases hor : or c.command_line fs₁ with ⟨rc₂, fs₂⟩
          rw [hor] at h
          simp only [Prod.mk.injEq] at h
          obtain ⟨rfl, -, -, rfl⟩ := h
          exact h1.trans (CmdOk.mark (Bool.not_eq_true _ ▸ eq_false_of_ne_true hex))

/-- The `dfs_command_func` dependency loop inherits `CmdOk`. -/
theorem dfsCmdDeps_ok_of (cmds : List Cmd) (or : Oracle) (fuel : Nat)
    (hdfs : ∀ i st fs err st' fs' e tr,
      dfsCmd cmds or fuel i st fs err = (st', fs', e, tr) → CmdOk st st' tr) :
    ∀ (ds : List Nat) (st : CmdState) (fs : Fs) (err : Bool) st' fs' e tr,
      dfsCmdDeps cmds or fuel ds st fs err = (st', fs', e, tr) → CmdOk st st' tr := by
  intro ds
  induction ds with
  | nil =>
    intro st fs err st' fs' e tr h
    simp only [dfsCmdDeps, Prod.mk.injEq] at h
    obtain ⟨rfl, -, -, rfl⟩ := h
    exact CmdOk.refl st
  | cons d ds ih =>
    intro st fs err st' fs' e tr h
    rcases hr : dfsCmd cmds or fuel d st fs err with ⟨st₁, fs₁, e₁, tr₁⟩
    have h1 := hdfs d st fs err st₁ fs₁ e₁ tr₁ hr
    simp only [dfsCmdDeps, hr] at h
    cases e₁ with
    | true =>
      dsimp only at h
      simp only [Prod.mk.injEq] at h
      obtain ⟨rfl, -, -, rfl⟩ := h
      exact h1
    | false =>
      dsimp only at h
      rcases hd : dfsCmdDeps cmds or fuel ds st₁ fs₁ false with ⟨st₂, fs₂, e₂, tr₂⟩
      have h2 := ih st₁ fs₁ false st₂ fs₂ e₂ tr₂ hd
      rw [hd] at h
      simp only [Prod.mk.injEq] at h
      obtain ⟨rfl, -, -, rfl⟩ := h
      exact h1.trans h2

/-- `dfs_command_func` satisfies `CmdOk`. -/
theorem dfsCmd_ok (cmds : List Cmd) (or : Oracle) :
    ∀ (fuel : Nat) (i : Nat) (st : CmdState) (fs : Fs) (err : Bool) st' fs' e tr,
      dfsCmd cmds or fuel i st fs err = (st', fs', e, tr) → CmdOk st st' tr := by
  intro fuel
  induction fuel with
  | zero =>
    intro i st fs err st' fs' e tr h
    simp only [dfsCmd, Prod.mk.injEq] at h
    obtain ⟨rfl, -, -, rfl⟩ := h
    exact CmdOk.refl st
  | succ fuel ih =>
    intro i st fs err st' fs' e tr h
    simp only [dfsCmd] at h
    cases err with
    | true =>
      rw [if_pos rfl] at h
      simp only [Prod.mk.injEq] at h
      obtain ⟨rfl, -, -, rfl⟩ := h
      exact CmdOk.refl st
    | false =>
      rw [if_neg (by simp)] at h
      cases hget : cmds.get? i with
      | none =>
        rw [hget] at h
        simp only [Prod.mk.injEq] at h
        obtain ⟨rfl, -, -, rfl⟩ := h
        exact CmdOk.refl st
      | some c =>
        rw [hget] at h
        dsimp only at h
        by_cases hex : st.executed i
        · rw [if_pos hex] at h
          simp only [Prod.mk.injEq] at h
          obtain ⟨rfl, -, -, rfl⟩ := h
          exact CmdOk.refl st
        · rw [if_neg hex] at h
          rcases hd : dfsCmdDeps cmds or fuel c.dependencies st fs false
            with ⟨st₁, fs₁, e₁, tr₁⟩
          have h1 := dfsCmdDeps_ok_of cmds or fuel ih c.dependencies st fs false
            st₁ fs₁ e₁ tr₁ hd
          rw [hd] at h
          cases e₁ with
          | true =>
            dsimp only at h
            simp only [Prod.mk.injEq] at h
            obtain ⟨rfl, -, -, rfl⟩ := h
            exact h1
          | false =>
            dsimp only at h
            rcases hr : runCmd cmds or (fuel + 1) i st₁ fs₁ with ⟨st₂, fs₂, rc₂, tr₂⟩
            have h2 := runCmd_ok cmds or (fuel + 1) i st₁ fs₁ st₂ fs₂ rc₂ tr₂ hr
            rw [hr] at h
            simp only [Prod.mk.injEq] at h
            obtain ⟨rfl, -, -, rfl⟩ := h
            exact h1.trans h2

theorem cmdTraceOf_append (l₁ l₂ : List Ev) :
    cmdTraceOf (l₁ ++ l₂) = cmdTraceOf l₁ ++ cmdTraceOf l₂ :=
  List.filterMap_append _ _ _

theorem cmdTraceOf_map_cmdExec (l : List Nat) :
    cmdTraceOf (l.map Ev.cmdExec) = l := by
  induction l with
  | nil => rfl
  | cons x xs ih => simp [cmdTraceOf, List.filterMap_cons] at ih ⊢; exact ih

theorem cmdTraceOf_compilePhase (g : Globals) (or : Oracle) (ti : Nat)
    (t : Target) (l : List String) (fs : Fs) :
    cmdTraceOf (compilePhase g or ti t l fs).2.2 = [] := by
  induction l generalizing fs with
  | nil => simp [compilePhase, cmdTraceOf]
  | cons src rest ih =>
    by_cases hrec : need_recompile fs src (objPathIn t.objDirStr src)
        (depPathIn t.objDirStr src)
    · rcases hor : or (compile_source_cmd g t src (objPathIn t.objDirStr src)) fs
        with ⟨rc, fs₁⟩
      simp only [compilePhase, hrec, if_true, hor]
      by_cases hrc : rc ≠ 0
      · simp [hrc, cmdTraceOf]
      · rw [if_neg hrc]
        rcases hcp : compilePhase g or ti t rest fs₁ with ⟨fs₂, e₂, evs₂⟩
        have h := ih fs₁
        rw [hcp] at h
        simpa [cmdTraceOf, List.filterMap_cons] using h
    · simp only [compilePhase, hrec, if_false]
      exact ih fs

theorem cmdTraceOf_buildTgt_cons (ti : Nat) (l : List Ev) :
    cmdTraceOf (Ev.buildTgt ti :: l) = cmdTraceOf l := rfl

theorem cmdTraceOf_build_target (g : Globals) (reg : List Target) (or : Oracle)
    (ti : Nat) (t : Target) (fs : Fs) :
    cmdTraceOf (build_target g reg or ti t fs).2.2 = [] := by
  have hcp0 := cmdTraceOf_compilePhase g or ti t t.sources fs
  unfold build_target
  rcases hcp : compilePhase g or ti t t.sources fs with ⟨fs₁, e₁, evs₁⟩
  rw [hcp] at hcp0
  cases e₁ with
  | true => simpa using hcp0
  | false =>
    by_cases hl : needs_link fs₁ reg t (t.sources.map (objPathIn t.objDirStr))
    · rcases hor : or (link_cmd g reg t (t.sources.map (objPathIn t.objDirStr))) fs₁
        with ⟨rc, fs₂⟩
      simp only [hl, if_true, hor]
      rw [cmdTraceOf_append, hcp0]
      rfl
    · simp only [hl, if_false]
      simpa using hcp0

/-- The target-dependency loop inherits `CmdOk` on the memo component. -/
theorem dfsBuildDeps_cmdOk_of (g : Globals) (reg : List Target) (cmds : List Cmd)
    (or : Oracle) (cmdFuel fuel : Nat)
    (hdfs : ∀ ti st st' evs, dfsBuild g reg cmds or cmdFuel fuel ti st = (st', evs) →
      CmdOk st.cmdSt st'.cmdSt (cmdTraceOf evs)) :
    ∀ (ds : List Nat) (st : BuildSt) st' evs,
      dfsBuildDeps g reg cmds or cmdFuel fuel ds st = (st', evs) →
      CmdOk st.cmdSt st'.cmdSt (cmdTraceOf evs) := by
  intro ds
  induction ds with
  | nil =>
    intro st st' evs h
    simp only [dfsBuildDeps, Prod.mk.injEq] at h
    obtain ⟨rfl, rfl⟩ := h
    exact CmdOk.refl _
  | cons d ds ih =>
    intro st st' evs h
    rcases hr : dfsBuild g reg cmds or cmdFuel fuel d st with ⟨st₁, evs₁⟩
    have h1 := hdfs d st st₁ evs₁ hr
    simp only [dfsBuildDeps, hr] at h
    by_cases he : st₁.err = true
    · rw [if_pos he] at h
      simp only [Prod.mk.injEq] at h
      obtain ⟨rfl, rfl⟩ := h
      exact h1
    · rw [if_neg he] at h
      rcases hd : dfsBuildDeps g reg cmds or cmdFuel fuel ds st₁ with ⟨st₂, evs₂⟩
      have h2 := ih st₁ st₂ evs₂ hd
      rw [hd] at h
      simp only [Prod.mk.injEq] at h
      obtain ⟨rfl, rfl⟩ := h
      rw [cmdTraceOf_append]
      exact h1.trans h2

/-- `dfs_build_func` satisfies `CmdOk` on the memo component: all its
Command spawns go through `dfs_command_func` / `cbuild_run_command`. -/
theorem dfsBuild_cmdOk (g : Globals) (reg : List Target) (cmds : List Cmd)
    (or : Oracle) (cmdFuel : Nat) :
    ∀ (fuel ti : Nat) (st : BuildSt) st' evs,
      dfsBuild g reg cmds or cmdFuel fuel ti st = (st', evs) →
      CmdOk st.cmdSt st'.cmdSt (cmdTraceOf evs) := by
  intro fuel
  induction fuel with
  | zero =>
    intro ti st st' evs h
    simp only [dfsBuild, Prod.mk.injEq] at h
    obtain ⟨rfl, rfl⟩ := h
    exact CmdOk.refl _
  | succ fuel ih =>
    intro ti st st' evs h
    simp only [dfsBuild] at h
    cases hget : reg.get? ti with
    | none =>
      rw [hget] at h
      simp only [Prod.mk.injEq] at h
      obtain ⟨rfl, rfl⟩ := h
      exact CmdOk.refl _
    | some t =>
      rw [hget] at h
      dsimp only at h
      by_cases herr : st.err = true
      · rw [if_pos herr] at h
        simp only [Prod.mk.injEq] at h
        obtain ⟨rfl, rfl⟩ := h
        exact CmdOk.refl _
      · rw [if_neg herr] at h
        by_cases hstk : st.in_stack ti = true
        · rw [if_pos hstk] at h
          simp only [Prod.mk.injEq] at h
          obtain ⟨rfl, rfl⟩ := h
          exact CmdOk.refl _
        · rw [if_neg hstk] at h
          by_cases hvis : st.visited ti = true
          · rw [if_pos hvis] at h
            simp only [Prod.mk.injEq] at h
            obtain ⟨rfl, rfl⟩ := h
            exact CmdOk.refl _
          · rw [if_neg hvis] at h
            rcases hpre : dfsCmdDeps cmds or cmdFuel t.commands st.cmdSt st.fs false
              with ⟨cst₂, fs₂, e₂, ctr⟩
            have h1 : CmdOk st.cmdSt cst₂ ctr :=
              dfsCmdDeps_ok_of cmds or cmdFuel (dfsCmd_ok cmds or cmdFuel)
                t.commands st.cmdSt st.fs false cst₂ fs₂ e₂ ctr hpre
            rw [hpre] at h
            cases e₂ with
            | true =>
              dsimp only at h
              simp only [Prod.mk.injEq] at h
              obtain ⟨rfl, rfl⟩ := h
              simpa [cmdTraceOf_map_cmdExec] using h1
            | false =>
              dsimp only at h
              rcases hdeps : dfsBuildDeps g reg cmds or cmdFuel fuel t.dependencies
                  { st with
                      in_stack := fun j => if j = ti then true else st.in_stack j
                      cmdSt := cst₂
                      fs := fs₂ }
                with ⟨st₃, devs⟩
              have h2 : CmdOk cst₂ st₃.cmdSt (cmdTraceOf devs) :=
                dfsBuildDeps_cmdOk_of g reg cmds or cmdFuel fuel ih t.dependencies
                  _ st₃ devs hdeps
              rw [hdeps] at h
              by_cases he₃ : st₃.err = true
              · rw [if_pos he₃] at h
                simp only [Prod.mk.injEq] at h
                obtain ⟨rfl, rfl⟩ := h
                rw [cmdTraceOf_append, cmdTraceOf_map_cmdExec]
                exact h1.trans h2
              · rw [if_neg he₃] at h
                rcases hbt : build_target g reg or ti t st₃.fs with ⟨fs₄, berr, bevs⟩
                have h3 : cmdTraceOf bevs = [] := by
                  have := cmdTraceOf_build_target g reg or ti t st₃.fs
                  rw [hbt] at this
                  exact this
                rw [hbt] at h
                dsimp only at h
                rcases hpost : dfsCmdDeps cmds or cmdFuel t.post_commands st₃.cmdSt fs₄ berr
                  with ⟨cst₅, fs₅, e₅, ptr⟩
                have h4 : CmdOk st₃.cmdSt cst₅ ptr :=
                  dfsCmdDeps_ok_of cmds or cmdFuel (dfsCmd_ok cmds or cmdFuel)
                    t.post_commands st₃.cmdSt fs₄ berr cst₅ fs₅ e₅ ptr hpost
                rw [hpost] at h
                by_cases hq : t.post_commands ≠ [] ∧ e₅ = true
                · rw [if_pos hq] at h
                  simp only [Prod.mk.injEq] at h
                  obtain ⟨rfl, rfl⟩ := h
                  rw [cmdTraceOf_append, cmdTraceOf_append, cmdTraceOf_append,
                    cmdTraceOf_map_cmdExec, cmdTraceOf_buildTgt_cons, h3,
                    cmdTraceOf_map_cmdExec]
                  simpa using (h1.trans h2).trans h4
                · rw [if_neg hq] at h
                  simp only [Prod.mk.injEq] at h
                  obtain ⟨rfl, rfl⟩ := h
                  rw [cmdTraceOf_append, cmdTraceOf_append, cmdTraceOf_append,
                    cmdTraceOf_map_cmdExec, cmdTraceOf_buildTgt_cons, h3,
                    cmdTraceOf_map_cmdExec]
                  simpa using (h1.trans h2).trans h4

/-- The top-level build loop inherits `CmdOk`. -/
theorem buildLoop_cmdOk (g : Globals) (reg : List Target) (cmds : List Cmd)
    (or : Oracle) (dfsFuel cmdFuel : Nat) :
    ∀ (is : List Nat) (st : BuildSt) st' evs,
      buildLoop g reg cmds or dfsFuel cmdFuel is st = (st', evs) →
      CmdOk st.cmdSt st'.cmdSt (cmdTraceOf evs) := by
  intro is
  induction is with
  | nil =>
    intro st st' evs h
    simp only [buildLoop, Prod.mk.injEq] at h
    obtain ⟨rfl, rfl⟩ := h
    exact CmdOk.refl _
  | cons i rest ih =>
    intro st st' evs h
    simp only [buildLoop] at h
    by_cases hv : st.visited i = true
    · rw [if_pos hv] at h
      exact ih st st' evs h
    · rw [if_neg hv] at h
      rcases hr : dfsBuild g reg cmds or cmdFuel dfsFuel i st with ⟨st₁, evs₁⟩
      have h1 := dfsBuild_cmdOk g reg cmds or cmdFuel dfsFuel i st st₁ evs₁ hr
      rw [hr] at h
      by_cases he : st₁.err = true
      · rw [if_pos he] at h
        simp only [Prod.mk.injEq] at h
        obtain ⟨rfl, rfl⟩ := h
        exact h1
      · rw [if_neg he] at h
        rcases hb : buildLoop g reg cmds or dfsFuel cmdFuel rest st₁ with ⟨st₂, evs₂⟩
        have h2 := ih st₁ st₂ evs₂ hb
        rw [hb] at h
        simp only [Prod.mk.injEq] at h
        obtain ⟨rfl, rfl⟩ := h
        rw [cmdTraceOf_append]
        exact h1.trans h2

theorem cmdTraceOf_map_stdout (l : List String) :
    cmdTraceOf (l.map Ev.stdoutLine) = [] := by
  induction l with
  | nil => rfl
  | cons x xs ih => simpa [cmdTraceOf, List.filterMap_cons] using ih

/-- The `clean` branch spawns no Command shell line (its subprocesses are
raw `run_command` calls). -/
theorem cmdTraceOf_cleanStep (or : Oracle) (acc : Fs × List Ev) (sub : Subproject) :
    cmdTraceOf (cleanStep or acc sub).2 = cmdTraceOf acc.2 := by
  unfold cleanStep
  rcases hor : or ("cd '" ++ sub.directory ++ "' && '" ++ sub.cbuild_exe ++ "' clean") acc.1
    with ⟨rc, fs'⟩
  rw [cmdTraceOf_append]
  simp [cmdTraceOf]

theorem cmdTraceOf_cleanFold (or : Oracle) :
    ∀ (subs : List Subproject) (init : Fs × List Ev),
      cmdTraceOf (subs.foldl (cleanStep or) init).2 = cmdTraceOf init.2 := by
  intro subs
  induction subs with
  | nil => intro init; rfl
  | cons sub rest ih =>
    intro init
    simp only [List.foldl_cons]
    rw [ih, cmdTraceOf_cleanStep]

theorem cmdTraceOf_cleanBranch (cfg : Config) (or : Oracle) (fs : Fs) :
    cmdTraceOf (cleanBranch cfg or fs).2 = [] := by
  unfold cleanBranch
  rcases hf : cfg.subprojects.foldl (cleanStep or) (fs, ([] : List Ev)) with ⟨fs₁, evs⟩
  have h := cmdTraceOf_cleanFold or cfg.subprojects (fs, ([] : List Ev))
  rw [hf] at h
  simpa using h

/-- Every `run` invocation satisfies `CmdOk` from its incoming memo state:
in particular its Command-spawn trace is duplicate-free. -/
theorem cbuild_run_cmdOk (cfg : Config) (or : Oracle) (args : List String)
    (fs : Fs) (cst : CmdState) :
    ∃ st', CmdOk cst st' (cmdTraceOf (cbuild_run cfg or args fs cst).2) := by
  cases args with
  | nil =>
    unfold cbuild_run defaultBuild
    rcases hb : buildLoop cfg.g cfg.targets cfg.cmds or (cfg.targets.length + 1)
        (cfg.cmds.length + 1) (List.range cfg.targets.length) (BuildSt.start fs cst)
      with ⟨st₁, evs⟩
    exact ⟨st₁.cmdSt, buildLoop_cmdOk _ _ _ _ _ _ _ _ _ _ hb⟩
  | cons a rest =>
    unfold cbuild_run
    dsimp only
    by_cases h1 : a = "--manifest"
    · rw [if_pos h1]
      exact ⟨cst, by rw [cmdTraceOf_map_stdout]; exact CmdOk.refl cst⟩
    · rw [if_neg h1]
      by_cases h2 : a = "clean"
      · rw [if_pos h2]
        exact ⟨cst, by rw [cmdTraceOf_cleanBranch]; exact CmdOk.refl cst⟩
      · rw [if_neg h2]
        cases hf : cfg.subcommands.find? (fun sc => sc.name = a) with
        | none =>
          unfold defaultBuild
          rcases hb : buildLoop cfg.g cfg.targets cfg.cmds or (cfg.targets.length + 1)
              (cfg.cmds.length + 1) (List.range cfg.targets.length) (BuildSt.start fs cst)
            with ⟨st₁, evs⟩
          exact ⟨st₁.cmdSt, buildLoop_cmdOk _ _ _ _ _ _ _ _ _ _ hb⟩
        | some sc =>
          dsimp only
          rcases hr : dfsBuild cfg.g cfg.targets cfg.cmds or (cfg.cmds.length + 1)
              (cfg.targets.length + 1) sc.target (BuildSt.start fs cst)
            with ⟨st₁, evs₁⟩
          have hok := dfsBuild_cmdOk cfg.g cfg.targets cfg.cmds or (cfg.cmds.length + 1)
            (cfg.targets.length + 1) sc.target (BuildSt.start fs cst) st₁ evs₁ hr
          dsimp only
          by_cases he : st₁.err = true
          · rw [if_pos he]
            exact ⟨st₁.cmdSt, hok⟩
          · rw [if_neg he]
            cases hcl : sc.command_line with
            | some cl =>
              dsimp only
              refine ⟨st₁.cmdSt, ?_⟩
              rw [cmdTraceOf_append]
              simpa [cmdTraceOf] using hok
            | none => exact ⟨st₁.cmdSt, hok⟩

/-- On a dependency-closed state, revisiting an executed command through
`cbuild_run_command` returns the cached result without touching the memo
state, the filesystem, or spawning anything, provided the dependency graph
is ranked (acyclic) and the fuel covers the rank. -/
theorem runCmd_cached (cmds : List Cmd) (or : Oracle) (r : Nat → Nat)
    (hwf : ∀ ci ∈ cmds, ∀ d ∈ ci.dependencies, d < cmds.length)
    (hrank : ∀ i ci, cmds.get? i = some ci → ∀ d ∈ ci.dependencies, r d < r i) :
    ∀ (fuel i : Nat) (st : CmdState) (fs : Fs),
      ExecClosed cmds st → st.executed i = true → i < cmds.length →
      r i < fuel →
      runCmd cmds or fuel i st fs = (st, fs, st.result i, []) := by
  intro fuel
  induction fuel with
  | zero => intro i st fs _ _ _ hfl; omega
  | succ fuel ih =>
    intro i st fs hcl hex hi hfl
    have hget : cmds.get? i = some (cmds.get ⟨i, hi⟩) := List.get?_eq_get hi
    have hmem : cmds.get ⟨i, hi⟩ ∈ cmds := List.get_mem cmds i hi
    have hdeps : ∀ (ds : List Nat),
        (∀ d ∈ ds, st.executed d = true ∧ st.result d = 0 ∧ d < cmds.length ∧ r d < fuel) →
        runCmdDeps cmds or fuel ds st fs = (st, fs, none, []) := by
      intro ds
      induction ds with
      | nil => intro _; simp only [runCmdDeps]
      | cons d ds ihd =>
        intro hall
        obtain ⟨hexd, hresd, hdlt, hrd⟩ := hall d (List.mem_cons_self d ds)
        have hone := ih d st fs hcl hexd hdlt hrd
        simp only [runCmdDeps, hone, hresd]
        simp only [ne_eq, not_true_eq_false, if_false]
        rw [ihd (fun x hx => hall x (List.mem_cons_of_mem d hx))]
        simp
    have hall : ∀ d ∈ (cmds.get ⟨i, hi⟩).dependencies,
        st.executed d = true ∧ st.result d = 0 ∧ d < cmds.length ∧ r d < fuel := by
      intro d hd
      obtain ⟨hd1, hd2⟩ := hcl i _ hex hget d hd
      refine ⟨hd1, hd2, hwf _ hmem d hd, ?_⟩
      have := hrank i _ hget d hd
      omega
    simp only [runCmd, hget, hdeps _ hall, hex, if_pos]

/-- **C5.** Within one invocation of `run`, each Command's shell line is
spawned at most once, even when the command is reachable through several
dependency paths; once a command is marked executed, any later
`cbuild_run_command` visit neither re-spawns it nor disturbs its cached
result; and on a dependency-closed state (acyclic, rank-bounded dependency
graph, sufficient fuel) such a visit returns exactly the cached result with
unchanged state and an empty spawn trace. -/
theorem c5_command_runs_at_most_once (cfg : Config) (or : Oracle)
    (args : List String) (fs : Fs) (c : Nat) :
    List.count c (cmdTraceOf (cbuild_run cfg or args fs CmdState.init).2) ≤ 1 ∧
    (∀ fuel i st fs₀ st' fs' rc tr,
      runCmd cfg.cmds or fuel i st fs₀ = (st', fs', rc, tr) →
      st.executed c = true →
      c ∉ tr ∧ st'.executed c = true ∧ st'.result c = st.result c) ∧
    (∀ (r : Nat → Nat) (fuel : Nat) (st : CmdState) (fs₀ : Fs),
      (∀ ci ∈ cfg.cmds, ∀ d ∈ ci.dependencies, d < cfg.cmds.length) →
      (∀ i ci, cfg.cmds.get? i = some ci → ∀ d ∈ ci.dependencies, r d < r i) →
      ExecClosed cfg.cmds st → st.executed c = true → c < cfg.cmds.length →
      r c < fuel →
      runCmd cfg.cmds or fuel c st fs₀ = (st, fs₀, st.result c, [])) := by
  refine ⟨?_, ?_, ?_⟩
  · obtain ⟨st', hok⟩ := cbuild_run_cmdOk cfg or args fs CmdState.init
    exact List.nodup_iff_count_le_one.mp hok.2.2.1 c
  · intro fuel i st fs₀ st' fs' rc tr hrun hex
    have hok := runCmd_ok cfg.cmds or fuel i st fs₀ st' fs' rc tr hrun
    exact ⟨hok.2.1 c hex, (hok.1 c hex).1, (hok.1 c hex).2⟩
  · intro r fuel st fs₀ hwf hrank hcl hex hc hfl
    exact runCmd_cached cfg.cmds or r hwf hrank fuel c st fs₀ hcl hex hc hfl

/-- Witness for C5: the doubly-referenced command of `cfgC5` runs at most
once, and a revisit of the already-executed command 0 returns its cached
result 0 without spawning anything. -/
theorem c5_witness :
    List.count 0 (cmdTraceOf (cbuild_run cfgC5 orW0 [] fsNone CmdState.init).2) ≤ 1 ∧
    runCmd cfgC5.cmds orW0 1 0 stC5 fsNone = (stC5, fsNone, 0, []) := by
  refine ⟨(c5_command_runs_at_most_once cfgC5 orW0 [] fsNone 0).1, ?_⟩
  have h := (c5_command_runs_at_most_once cfgC5 orW0 [] fsNone 0).2.2
    (fun i => i) 1 stC5 fsNone
    (by
      intro ci hci d hd
      simp [cfgC5] at hci
      subst hci
      simp at hd)
    (by
      intro i ci hget d hd
      cases i with
      | zero =>
        simp [cfgC5] at hget
        subst hget
        simp at hd
      | succ n => simp [cfgC5] at hget)
    (by
      intro i ci hex hget d hd
      cases i with
      | zero =>
        simp [cfgC5] at hget
        subst hget
        simp at hd
      | succ n => simp [cfgC5] at hget)
    (by decide) (by decide) (by decide)
  exact h

/-! ## C6: a dependency cycle aborts the run with a diagnostic

All lemmas in this section assume an environment where every spawned
subprocess exits 0 (`hor`), so that cycle detection is the only error
source, and a ranked (acyclic) command graph with in-range dependency
indices, so that the command recursion terminates within the fuel
`cbuild_run` supplies. -/

theorem freeCountF_set (n : Nat) (f : Nat → Bool) (ti : Nat)
    (hti : ti < n) (hf : f ti = false) :
    freeCountF n f = freeCountF n (fun j => if j = ti then true else f j) + 1 := by
  unfold freeCountF
  have hmem : ti ∈ (Finset.range n).filter (fun i => f i = false) := by
    simp [Finset.mem_filter, Finset.mem_range, hti, hf]
  have hset : (Finset.range n).filter
      (fun i => (fun j => if j = ti then true else f j) i = false) =
      ((Finset.range n).filter (fun i => f i = false)).erase ti := by
    ext x
    by_cases hx : x = ti <;>
      simp [Finset.mem_filter, Finset.mem_range, Finset.mem_erase, hx, hf]
  have hpos : 0 < ((Finset.range n).filter (fun i => f i = false)).card :=
    Finset.card_pos.mpr ⟨ti, hmem⟩
  rw [hset, Finset.card_erase_of_mem hmem]
  omega

theorem runCmdDeps_success_of (cmds : List Cmd) (or : Oracle) (r : Nat → Nat)
    (fuel : Nat)
    (hrun : ∀ i st fs st' fs' rc tr, runCmd cmds or fuel i st fs = (st', fs', rc, tr) →
      ResultsZero st → i < cmds.length → r i < fuel → rc = 0 ∧ ResultsZero st') :
    ∀ (ds : List Nat) (st : CmdState) (fs : Fs) st' fs' rr tr,
      runCmdDeps cmds or fuel ds st fs = (st', fs', rr, tr) →
      ResultsZero st → (∀ d ∈ ds, d < cmds.length ∧ r d < fuel) →
      rr = none ∧ ResultsZero st' := by
  intro ds
  induction ds with
  | nil =>
    intro st fs st' fs' rr tr h hres _
    simp only [runCmdDeps, Prod.mk.injEq] at h
    obtain ⟨rfl, -, hrr, -⟩ := h
    exact ⟨hrr.symm, hres⟩
  | cons d ds ih =>
    intro st fs st' fs' rr tr h hres hall
    rcases hr : runCmd cmds or fuel d st fs with ⟨st₁, fs₁, rc, tr₁⟩
    obtain ⟨hrc, hres₁⟩ := hrun d st fs st₁ fs₁ rc tr₁ hr hres
      (hall d (List.mem_cons_self d ds)).1 (hall d (List.mem_cons_self d ds)).2
    subst hrc
    simp only [runCmdDeps, hr] at h
    simp only [ne_eq, not_true_eq_false, if_false] at h
    rcases hd : runCmdDeps cmds or fuel ds st₁ fs₁ with ⟨st₂, fs₂, rr₂, tr₂⟩
    rw [hd] at h
    simp only [Prod.mk.injEq] at h
    obtain ⟨rfl, -, hrr, -⟩ := h
    obtain ⟨hrr₂, hres₂⟩ := ih st₁ fs₁ st₂ fs₂ rr₂ tr₂ hd hres₁
      (fun x hx => hall x (List.mem_cons_of_mem d hx))
    exact ⟨hrr ▸ hrr₂, hres₂⟩

/-- Under an all-succeeding oracle, with a ranked command graph and enough
fuel, `cbuild_run_command` returns 0 and keeps all cached results 0. -/
theorem runCmd_success (cmds : List Cmd) (or : Oracle) (r : Nat → Nat)
    (hor : ∀ s f, (or s f).1 = 0)
    (hwfc : ∀ ci ∈ cmds, ∀ d ∈ ci.dependencies, d < cmds.length)
    (hrank : ∀ i ci, cmds.get? i = some ci → ∀ d ∈ ci.dependencies, r d < r i) :
    ∀ (fuel i : Nat) (st : CmdState) (fs : Fs) st' fs' rc tr,
      runCmd cmds or fuel i st fs = (st', fs', rc, tr) →
      ResultsZero st → i < cmds.length → r i < fuel →
      rc = 0 ∧ ResultsZero st' := by
  intro fuel
  induction fuel with
  | zero => intro i st fs st' fs' rc tr _ _ _ hfl; omega
  | succ fuel ih =>
    intro i st fs st' fs' rc tr h hres hi hfl
    have hget : cmds.get? i = some (cmds.get ⟨i, hi⟩) := List.get?_eq_get hi
    have hmem : cmds.get ⟨i, hi⟩ ∈ cmds := List.get_mem cmds i hi
    simp only [runCmd, hget] at h
    rcases hd : runCmdDeps cmds or fuel (cmds.get ⟨i, hi⟩).dependencies st fs
      with ⟨st₁, fs₁, rr, tr₁⟩
    obtain ⟨hrr, hres₁⟩ := runCmdDeps_success_of cmds or r fuel ih
      (cmds.get ⟨i, hi⟩).dependencies st fs st₁ fs₁ rr tr₁ hd hres
      (by
        intro d hdm
        refine ⟨hwfc _ hmem d hdm, ?_⟩
        have := hrank i _ hget d hdm
        omega)
    subst hrr
    rw [hd] at h
    dsimp only at h
    by_cases hex : st₁.executed i
    · rw [if_pos hex] at h
      simp only [Prod.mk.injEq] at h
      obtain ⟨rfl, -, hrc, -⟩ := h
      exact ⟨hrc ▸ (hres₁ i), hres₁⟩
    · rw [if_neg hex] at h
      rcases hor2 : or (cmds.get ⟨i, hi⟩).command_line fs₁ with ⟨rc₂, fs₂⟩
      have hrc₂ : rc₂ = 0 := by
        have := hor (cmds.get ⟨i, hi⟩).command_line fs₁
        rw [hor2] at this
        exact this
      rw [hor2] at h
      simp only [Prod.mk.injEq] at h
      obtain ⟨rfl, -, hrc, -⟩ := h
      refine ⟨hrc ▸ hrc₂, ?_⟩
      intro x
      simp only [CmdState.mark]
      by_cases hx : x = i <;> simp [hx, hrc₂, hres₁ x]

theorem dfsCmdDeps_success_of (cmds : List Cmd) (or : Oracle) (r : Nat → Nat)
    (fuel : Nat)
    (hdfs : ∀ i st fs st' fs' e tr, dfsCmd cmds or fuel i st fs false = (st', fs', e, tr) →
      ResultsZero st → (i < cmds.length → r i < fuel) → 1 ≤ fuel →
      e = false ∧ ResultsZero st') :
    ∀ (ds : List Nat) (st : CmdState) (fs : Fs) st' fs' e tr,
      dfsCmdDeps cmds or fuel ds st fs false = (st', fs', e, tr) →
      ResultsZero st → (∀ d ∈ ds, d < cmds.length → r d < fuel) →
      (ds = [] ∨ 1 ≤ fuel) →
      e = false ∧ ResultsZero st' := by
  intro ds
  induction ds with
  | nil =>
    intro st fs st' fs' e tr h hres _ _
    simp only [dfsCmdDeps, Prod.mk.injEq] at h
    obtain ⟨rfl, -, he, -⟩ := h
    exact ⟨he.symm, hres⟩
  | cons d ds ih =>
    intro st fs st' fs' e tr h hres hall hone
    have hfl : 1 ≤ fuel := by
      rcases hone with h1 | h1
      · cases h1
      · exact h1
    rcases hr : dfsCmd cmds or fuel d st fs false with ⟨st₁, fs₁, e₁, tr₁⟩
    obtain ⟨he₁, hres₁⟩ := hdfs d st fs st₁ fs₁ e₁ tr₁ hr hres
      (hall d (List.mem_cons_self d ds)) hfl
    subst he₁
    simp only [dfsCmdDeps, hr] at h
    rcases hd : dfsCmdDeps cmds or fuel ds st₁ fs₁ false with ⟨st₂, fs₂, e₂, tr₂⟩
    rw [hd] at h
    simp only [Prod.mk.injEq] at h
    obtain ⟨rfl, -, he, -⟩ := h
    obtain ⟨he₂, hres₂⟩ := ih st₁ fs₁ st₂ fs₂ e₂ tr₂ hd hres₁
      (fun x hx => hall x (List.mem_cons_of_mem d hx)) (Or.inr hfl)
    exact ⟨he ▸ he₂, hres₂⟩

/-- Under an all-succeeding oracle, `dfs_command_func` never raises the
error flag. -/
theorem dfsCmd_success (cmds : List Cmd) (or : Oracle) (r : Nat → Nat)
    (hor : ∀ s f, (or s f).1 = 0)
    (hwfc : ∀ ci ∈ cmds, ∀ d ∈ ci.dependencies, d < cmds.length)
    (hrank : ∀ i ci, cmds.get? i = some ci → ∀ d ∈ ci.dependencies, r d < r i) :
    ∀ (fuel i : Nat) (st : CmdState) (fs : Fs) st' fs' e tr,
      dfsCmd cmds or fuel i st fs false = (st', fs', e, tr) →
      ResultsZero st → (i < cmds.length → r i < fuel) → 1 ≤ fuel →
      e = false ∧ ResultsZero st' := by
  intro fuel
  induction fuel with
  | zero => intro _ _ _ _ _ _ _ _ _ _ hfl; omega
  | succ fuel ih =>
    intro i st fs st' fs' e tr h hres hri _
    simp only [dfsCmd] at h
    rw [if_neg (by simp)] at h
    cases hget : cmds.get? i with
    | none =>
      rw [hget] at h
      simp only [Prod.mk.injEq] at h
      obtain ⟨rfl, -, he, -⟩ := h
      exact ⟨he.symm, hres⟩
    | some c =>
      have hi : i < cmds.length := by
        rcases List.get?_eq_some.mp hget with ⟨hlen, -⟩
        exact hlen
      have hmem : c ∈ cmds := List.get?_mem hget
      rw [hget] at h
      dsimp only at h
      by_cases hex : st.executed i
      · rw [if_pos hex] at h
        simp only [Prod.mk.injEq] at h
        obtain ⟨rfl, -, he, -⟩ := h
        exact ⟨he.symm, hres⟩
      · rw [if_neg hex] at h
        rcases hd : dfsCmdDeps cmds or fuel c.dependencies st fs false
          with ⟨st₁, fs₁, e₁, tr₁⟩
        have hfuel1 : r i < fuel + 1 := hri hi
        obtain ⟨he₁, hres₁⟩ := dfsCmdDeps_success_of cmds or r fuel ih
          c.dependencies st fs st₁ fs₁ e₁ tr₁ hd hres
          (by
            intro d hdm _
            have h1 := hrank i c hget d hdm
            omega)
          (by
            rcases hds : c.dependencies with - | ⟨d, ds⟩
            · exact Or.inl rfl
            · have h1 := hrank i c hget d (by rw [hds]; exact List.mem_cons_self d ds)
              omega)
        subst he₁
        rw [hd] at h
        dsimp only at h
        rcases hrc : runCmd cmds or (fuel + 1) i st₁ fs₁ with ⟨st₂, fs₂, rc₂, tr₂⟩
        obtain ⟨hrc₂, hres₂⟩ := runCmd_success cmds or r hor hwfc hrank (fuel + 1) i
          st₁ fs₁ st₂ fs₂ rc₂ tr₂ hrc hres₁ hi hfuel1
        rw [hrc] at h
        simp only [Prod.mk.injEq] at h
        obtain ⟨rfl, -, he, -⟩ := h
        subst hrc₂
        simp only [ne_eq, not_true_eq_false, decide_False] at he
        exact ⟨he.symm, hres₂⟩

/-- Under an all-succeeding oracle the compile loop never flags an error. -/
theorem compilePhase_success (g : Globals) (or : Oracle)
    (hor : ∀ s f, (or s f).1 = 0) (ti : Nat) (t : Target) :
    ∀ (l : List String) (fs : Fs), (compilePhase g or ti t l fs).2.1 = false := by
  intro l
  induction l with
  | nil => intro fs; simp [compilePhase]
  | cons src rest ih =>
    intro fs
    by_cases hrec : need_recompile fs src (objPathIn t.objDirStr src)
        (depPathIn t.objDirStr src)
    · rcases hor2 : or (compile_source_cmd g t src (objPathIn t.objDirStr src)) fs
        with ⟨rc, fs₁⟩
      have hrc : rc = 0 := by
        have h := hor (compile_source_cmd g t src (objPathIn t.objDirStr src)) fs
        rw [hor2] at h
        exact h
      subst hrc
      simp only [compilePhase, hrec, if_true, hor2]
      simp only [ne_eq, not_true_eq_false, if_false]
      rcases hcp : compilePhase g or ti t rest fs₁ with ⟨fs₂, e₂, evs₂⟩
      have h := ih fs₁
      rw [hcp] at h
      simpa using h
    · simp only [compilePhase, hrec, if_false]
      exact ih fs

/-- Under an all-succeeding oracle `build_target` never flags an error. -/
theorem build_target_success (g : Globals) (reg : List Target) (or : Oracle)
    (hor : ∀ s f, (or s f).1 = 0) (ti : Nat) (t : Target) (fs : Fs) :
    (build_target g reg or ti t fs).2.1 = false := by
  have hcp0 := compilePhase_success g or hor ti t t.sources fs
  unfold build_target
  rcases hcp : compilePhase g or ti t t.sources fs with ⟨fs₁, e₁, evs₁⟩
  rw [hcp] at hcp0
  simp only at hcp0
  subst hcp0
  by_cases hl : needs_link fs₁ reg t (t.sources.map (objPathIn t.objDirStr))
  · rcases hor2 : or (link_cmd g reg t (t.sources.map (objPathIn t.objDirStr))) fs₁
      with ⟨rc, fs₂⟩
    have hrc : rc = 0 := by
      have h := hor (link_cmd g reg t (t.sources.map (objPathIn t.objDirStr))) fs₁
      rw [hor2] at h
      exact h
    subst hrc
    simp [hl, hor2]
  · simp [hl]

/-- Every event of the compile loop is a compile event of this target. -/
theorem compilePhase_events (g : Globals) (or : Oracle) (ti : Nat) (t : Target) :
    ∀ (l : List String) (fs : Fs) e, e ∈ (compilePhase g or ti t l fs).2.2 →
      ∃ s, e = Ev.compile ti s := by
  intro l
  induction l with
  | nil => intro fs e he; simp [compilePhase] at he
  | cons src rest ih =>
    intro fs e he
    by_cases hrec : need_recompile fs src (objPathIn t.objDirStr src)
        (depPathIn t.objDirStr src)
    · rcases hor2 : or (compile_source_cmd g t src (objPathIn t.objDirStr src)) fs
        with ⟨rc, fs₁⟩
      simp only [compilePhase, hrec, if_true, hor2] at he
      by_cases hrc : rc ≠ 0
      · rw [if_pos hrc] at he
        simp only [List.mem_singleton] at he
        exact ⟨src, he⟩
      · rw [if_neg hrc] at he
        rcases hcp : compilePhase g or ti t rest fs₁ with ⟨fs₂, e₂, evs₂⟩
        rw [hcp] at he
        simp only [List.mem_cons] at he
        rcases he with he | he
        · exact ⟨src, he⟩
        · have h := ih fs₁ e
          rw [hcp] at h
          exact h he
    · simp only [compilePhase, hrec, if_false] at he
      exact ih fs e he

/-- Every event of `build_target` is a compile or link event of this
target; in particular no `buildTgt` or `cycleError` marker. -/
theorem build_target_events (g : Globals) (reg : List Target) (or : Oracle)
    (ti : Nat) (t : Target) (fs : Fs) :
    ∀ e ∈ (build_target g reg or ti t fs).2.2,
      (∃ s, e = Ev.compile ti s) ∨ e = Ev.link ti := by
  intro e he
  have hev := compilePhase_events g or ti t t.sources fs e
  unfold build_target at he
  rcases hcp : compilePhase g or ti t t.sources fs with ⟨fs₁, e₁, evs₁⟩
  rw [hcp] at he hev
  cases e₁ with
  | true => exact Or.inl (hev he)
  | false =>
    by_cases hl : needs_link fs₁ reg t (t.sources.map (objPathIn t.objDirStr))
    · rcases hor2 : or (link_cmd g reg t (t.sources.map (objPathIn t.objDirStr))) fs₁
        with ⟨rc, fs₂⟩
      simp only [hl, if_true, hor2, List.mem_append, List.mem_singleton] at he
      rcases he with he | he
      · exact Or.inl (hev he)
      · exact Or.inr he
    · simp only [hl, if_false] at he
      exact Or.inl (hev he)

theorem freeCountF_all_false (n : Nat) :
    freeCountF n (fun _ => false) = n := by
  simp [freeCountF]

/-- The target-dependency loop under the cycle scenario: it preserves the
invariants and, once the list contains `A` (resp. `B`), ends with the error
flag raised — each element either errors out (stopping the loop) or, by the
per-target lemma, is not `A`/`B` at all. -/
theorem dfsBuildDeps_cycle_of (g : Globals) (reg : List Target) (cmds : List Cmd)
    (or : Oracle) (A B : Nat) (fuel : Nat)
    (hG : ∀ ti st st' evs,
      dfsBuild g reg cmds or (cmds.length + 1) fuel ti st = (st', evs) →
      freeCountF reg.length st.in_stack < fuel → st.fuelOut = false →
      ResultsZero st.cmdSt → VFree A B st →
      VFree A B st' ∧ ResultsZero st'.cmdSt ∧ st'.in_stack = st.in_stack ∧
      st'.fuelOut = false ∧ Ev.buildTgt A ∉ evs ∧ Ev.buildTgt B ∉ evs ∧
      (st.err = false → st'.err = true → ∃ j, Ev.cycleError j ∈ evs) ∧
      (st.err = true → st'.err = true) ∧
      (st.err = false → ti = A → st'.err = true) ∧
      (st.err = false → ti = B → st'.err = true)) :
    ∀ (ds : List Nat) (st : BuildSt) st' evs,
      dfsBuildDeps g reg cmds or (cmds.length + 1) fuel ds st = (st', evs) →
      freeCountF reg.length st.in_stack < fuel → st.fuelOut = false →
      ResultsZero st.cmdSt → VFree A B st →
      VFree A B st' ∧ ResultsZero st'.cmdSt ∧ st'.in_stack = st.in_stack ∧
      st'.fuelOut = false ∧ Ev.buildTgt A ∉ evs ∧ Ev.buildTgt B ∉ evs ∧
      (st.err = false → st'.err = true → ∃ j, Ev.cycleError j ∈ evs) ∧
      (st.err = true → st'.err = true) ∧
      (st.err = false → A ∈ ds → st'.err = true) ∧
      (st.err = false → B ∈ ds → st'.err = true) := by
  intro ds
  induction ds with
  | nil =>
    intro st st' evs h hfc hfo hres hvf
    simp only [dfsBuildDeps, Prod.mk.injEq] at h
    obtain ⟨rfl, rfl⟩ := h
    refine ⟨hvf, hres, rfl, hfo, by simp, by simp, ?_, fun h1 => h1, ?_, ?_⟩
    · intro h1 h2
      rw [h1] at h2
      cases h2
    · intro _ hm
      cases hm
    · intro _ hm
      cases hm
  | cons d ds ih =>
    intro st st' evs h hfc hfo hres hvf
    rcases hr : dfsBuild g reg cmds or (cmds.length + 1) fuel d st with ⟨st₁, evs₁⟩
    obtain ⟨v₁, r₁, s₁, f₁, bA₁, bB₁, c₁, m₁, kA₁, kB₁⟩ :=
      hG d st st₁ evs₁ hr hfc hfo hres hvf
    simp only [dfsBuildDeps, hr] at h
    by_cases he₁ : st₁.err = true
    · rw [if_pos he₁] at h
      simp only [Prod.mk.injEq] at h
      obtain ⟨rfl, rfl⟩ := h
      exact ⟨v₁, r₁, s₁, f₁, bA₁, bB₁, fun h1 _ => c₁ h1 he₁, m₁,
        fun _ _ => he₁, fun _ _ => he₁⟩
    · rw [if_neg he₁] at h
      have hserr : st.err = false := by
        cases hs : st.err with
        | false => rfl
        | true => exact absurd (m₁ hs) he₁
      have he₁' : st₁.err = false := by
        cases hs : st₁.err with
        | false => rfl
        | true => exact absurd hs he₁
      rcases hd : dfsBuildDeps g reg cmds or (cmds.length + 1) fuel ds st₁
        with ⟨st₂, evs₂⟩
      obtain ⟨v₂, r₂, s₂, f₂, bA₂, bB₂, c₂, m₂, kA₂, kB₂⟩ :=
        ih st₁ st₂ evs₂ hd (by rw [s₁]; exact hfc) f₁ r₁ v₁
      rw [hd] at h
      simp only [Prod.mk.injEq] at h
      obtain ⟨rfl, rfl⟩ := h
      refine ⟨v₂, r₂, by rw [s₂, s₁], f₂, ?_, ?_, ?_, ?_, ?_, ?_⟩
      · simp only [List.mem_append, not_or]
        exact ⟨bA₁, bA₂⟩
      · simp only [List.mem_append, not_or]
        exact ⟨bB₁, bB₂⟩
      · intro _ h2
        obtain ⟨j, hj⟩ := c₂ he₁' h2
        exact ⟨j, List.mem_append.mpr (Or.inr hj)⟩
      · intro h1
        rw [hserr] at h1
        cases h1
      · intro _ hmem
        rcases List.mem_cons.mp hmem with heq | hmem'
        · exact absurd (kA₁ hserr heq.symm) he₁
        · exact kA₂ he₁' hmem'
      · intro _ hmem
        rcases List.mem_cons.mp hmem with heq | hmem'
        · exact absurd (kB₁ hserr heq.symm) he₁
        · exact kB₂ he₁' hmem'

/-- The heart of C6: under an all-succeeding oracle and a ranked command
graph, with `A` and `B` mutually dependent, every `dfs_build_func` call
preserves the invariants (neither `A` nor `B` ever becomes visited, the
`in_stack` vector is restored, cached results stay 0, the fuel never runs
out), never reaches `build_target` for `A` or `B`, raises the error flag
only together with a `circular dependency` diagnostic, and *always* raises
it when invoked on `A` or on `B` with a clear error flag. -/
theorem dfsBuild_cycle (g : Globals) (reg : List Target) (cmds : List Cmd)
    (or : Oracle) (r : Nat → Nat) (A B : Nat)
    (hor : ∀ s f, (or s f).1 = 0)
    (hwfc : ∀ ci ∈ cmds, ∀ d ∈ ci.dependencies, d < cmds.length)
    (hrank : ∀ i ci, cmds.get? i = some ci → ∀ d ∈ ci.dependencies, r d < r i)
    (hrb : ∀ i, i < cmds.length → r i < cmds.length + 1)
    (hA : A < reg.length) (hB : B < reg.length)
    (hdepA : B ∈ (reg.get ⟨A, hA⟩).dependencies)
    (hdepB : A ∈ (reg.get ⟨B, hB⟩).dependencies) :
    ∀ (fuel : Nat) (ti : Nat) (st : BuildSt) st' evs,
      dfsBuild g reg cmds or (cmds.length + 1) fuel ti st = (st', evs) →
      freeCountF reg.length st.in_stack < fuel → st.fuelOut = false →
      ResultsZero st.cmdSt → VFree A B st →
      VFree A B st' ∧ ResultsZero st'.cmdSt ∧ st'.in_stack = st.in_stack ∧
      st'.fuelOut = false ∧ Ev.buildTgt A ∉ evs ∧ Ev.buildTgt B ∉ evs ∧
      (st.err = false → st'.err = true → ∃ j, Ev.cycleError j ∈ evs) ∧
      (st.err = true → st'.err = true) ∧
      (st.err = false → ti = A → st'.err = true) ∧
      (st.err = false → ti = B → st'.err = true) := by
  intro fuel
  induction fuel with
  | zero =>
    intro ti st st' evs h hfc
    omega
  | succ fuel ih =>
    intro ti st st' evs h hfc hfo hres hvf
    have hsuccCmd := fun i st₀ fs₀ st₀' fs₀' e₀ tr₀ h₀ hres₀ hri₀ hone₀ =>
      dfsCmd_success cmds or r hor hwfc hrank (cmds.length + 1) i st₀ fs₀
        st₀' fs₀' e₀ tr₀ h₀ hres₀ hri₀ hone₀
    simp only [dfsBuild] at h
    cases hget : reg.get? ti with
    | none =>
      rw [hget] at h
      simp only [Prod.mk.injEq] at h
      obtain ⟨rfl, rfl⟩ := h
      have htiA : ti ≠ A := by
        intro hc
        subst hc
        rw [List.get?_eq_get hA] at hget
        cases hget
      have htiB : ti ≠ B := by
        intro hc
        subst hc
        rw [List.get?_eq_get hB] at hget
        cases hget
      refine ⟨hvf, hres, rfl, hfo, by simp, by simp, ?_, fun h1 => h1, ?_, ?_⟩
      · intro h1 h2
        rw [h1] at h2
        cases h2
      · intro _ hc
        exact absurd hc htiA
      · intro _ hc
        exact absurd hc htiB
    | some t =>
      rw [hget] at h
      dsimp only at h
      have hti : ti < reg.length := by
        rcases List.get?_eq_some.mp hget with ⟨hlen, -⟩
        exact hlen
      by_cases herr : st.err = true
      · rw [if_pos herr] at h
        simp only [Prod.mk.injEq] at h
        obtain ⟨rfl, rfl⟩ := h
        refine ⟨hvf, hres, rfl, hfo, by simp, by simp, ?_, fun h1 => h1, ?_, ?_⟩
        · intro h1
          rw [h1] at herr
          cases herr
        · intro h1 _
          rw [h1] at herr
          cases herr
        · intro h1 _
          rw [h1] at herr
          cases herr
      · rw [if_neg herr] at h
        have herr' : st.err = false := by
          cases hs : st.err with
          | false => rfl
          | true => exact absurd hs herr
        by_cases hstk : st.in_stack ti = true
        · rw [if_pos hstk] at h
          simp only [Prod.mk.injEq] at h
          obtain ⟨rfl, rfl⟩ := h
          refine ⟨hvf, hres, rfl, hfo, by simp, by simp, ?_, fun _ => rfl,
            fun _ _ => rfl, fun _ _ => rfl⟩
          intro _ _
          exact ⟨ti, List.mem_singleton.mpr rfl⟩
        · rw [if_neg hstk] at h
          have hstk' : st.in_stack ti = false := by
            cases hs : st.in_stack ti with
            | false => rfl
            | true => exact absurd hs hstk
          by_cases hvis : st.visited ti = true
          · rw [if_pos hvis] at h
            simp only [Prod.mk.injEq] at h
            obtain ⟨rfl, rfl⟩ := h
            refine ⟨hvf, hres, rfl, hfo, by simp, by simp, ?_, fun h1 => h1, ?_, ?_⟩
            · intro h1 h2
              rw [h1] at h2
              cases h2
            · intro _ hc
              subst hc
              rw [hvf.1] at hvis
              cases hvis
            · intro _ hc
              subst hc
              rw [hvf.2] at hvis
              cases hvis
          · rw [if_neg hvis] at h
            -- main path
            have hfc1 : freeCountF reg.length
                (fun j => if j = ti then true else st.in_stack j) + 1 =
                freeCountF reg.length st.in_stack :=
              (freeCountF_set reg.length st.in_stack ti hti hstk').symm
            rcases hpre : dfsCmdDeps cmds or (cmds.length + 1) t.commands
                st.cmdSt st.fs false with ⟨cst₂, fs₂, e₂, ctr⟩
            obtain ⟨he₂, hres₂⟩ := dfsCmdDeps_success_of cmds or r (cmds.length + 1)
              hsuccCmd t.commands st.cmdSt st.fs cst₂ fs₂ e₂ ctr hpre hres
              (fun d _ hd => hrb d hd) (Or.inr (by omega))
            subst he₂
            rw [hpre] at h
            dsimp only at h
            rcases hdeps : dfsBuildDeps g reg cmds or (cmds.length + 1) fuel
                t.dependencies
                { st with
                    in_stack := fun j => if j = ti then true else st.in_stack j
                    cmdSt := cst₂
                    fs := fs₂ }
              with ⟨st₃, devs⟩
            obtain ⟨v₃, r₃, s₃, f₃, bA₃, bB₃, c₃, m₃, kA₃, kB₃⟩ :=
              dfsBuildDeps_cycle_of g reg cmds or A B fuel ih t.dependencies
                _ st₃ devs hdeps (by dsimp only; omega) hfo hres₂ hvf
            rw [hdeps] at h
            by_cases he₃ : st₃.err = true
            · rw [if_pos he₃] at h
              simp only [Prod.mk.injEq] at h
              obtain ⟨rfl, rfl⟩ := h
              have hins : (fun j => if j = ti then false else st₃.in_stack j) =
                  st.in_stack := by
                funext j
                by_cases hj : j = ti
                · subst hj
                  simp [hstk']
                · simp only [if_neg hj]
                  rw [s₃]
                  simp [hj]
              refine ⟨v₃, r₃, hins, f₃, ?_, ?_, ?_, ?_, fun _ _ => he₃, fun _ _ => he₃⟩
              · simp only [List.mem_append, not_or]
                refine ⟨?_, bA₃⟩
                intro hc
                rcases List.mem_map.mp hc with ⟨c, -, hc2⟩
                cases hc2
              · simp only [List.mem_append, not_or]
                refine ⟨?_, bB₃⟩
                intro hc
                rcases List.mem_map.mp hc with ⟨c, -, hc2⟩
                cases hc2
              · intro _ _
                obtain ⟨j, hj⟩ := c₃ herr' he₃
                exact ⟨j, List.mem_append.mpr (Or.inr hj)⟩
              · intro h1
                rw [h1] at herr'
                cases herr'
            · -- the dependency loop did NOT fail: then ti is neither A nor B
              have he₃' : st₃.err = false := by
                cases hs : st₃.err with
                | false => rfl
                | true => exact absurd hs he₃
              rw [if_neg he₃] at h
              have htiA : ti ≠ A := by
                intro hc
                subst hc
                have ht : t = reg.get ⟨ti, hA⟩ := by
                  rw [List.get?_eq_get hA] at hget
                  exact (Option.some.inj hget).symm
                exact absurd (kB₃ herr' (ht ▸ hdepA)) he₃
              have htiB : ti ≠ B := by
                intro hc
                subst hc
                have ht : t = reg.get ⟨ti, hB⟩ := by
                  rw [List.get?_eq_get hB] at hget
                  exact (Option.some.inj hget).symm
                exact absurd (kA₃ herr' (ht ▸ hdepB)) he₃
              rcases hbt : build_target g reg or ti t st₃.fs with ⟨fs₄, berr, bevs⟩
              have hberr : berr = false := by
                have hx := build_target_success g reg or hor ti t st₃.fs
                rw [hbt] at hx
                exact hx
              subst hberr
              have hbevs : ∀ j, Ev.buildTgt j ∉ bevs := by
                intro j hj
                have hx := build_target_events g reg or ti t st₃.fs (Ev.buildTgt j)
                rw [hbt] at hx
                rcases hx hj with ⟨s, hs⟩ | hs
                · cases hs
                · cases hs
              rw [hbt] at h
              dsimp only at h
              rcases hpost : dfsCmdDeps cmds or (cmds.length + 1) t.post_commands
                  st₃.cmdSt fs₄ false with ⟨cst₅, fs₅, e₅, ptr⟩
              obtain ⟨he₅, hres₅⟩ := dfsCmdDeps_success_of cmds or r (cmds.length + 1)
                hsuccCmd t.post_commands st₃.cmdSt fs₄ cst₅ fs₅ e₅ ptr hpost r₃
                (fun d _ hd => hrb d hd) (Or.inr (by omega))
              subst he₅
              rw [hpost] at h
              rw [if_neg (by simp)] at h
              simp only [Prod.mk.injEq] at h
              obtain ⟨rfl, rfl⟩ := h
              have hins : (fun j => if j = ti then false else st₃.in_stack j) =
                  st.in_stack := by
                funext j
                by_cases hj : j = ti
                · subst hj
                  simp [hstk']
                · simp only [if_neg hj]
                  rw [s₃]
                  simp [hj]
              refine ⟨?_, hres₅, hins, f₃, ?_, ?_, ?_, ?_, ?_, ?_⟩
              · constructor
                · simp only
                  rw [if_neg (fun hc => htiA hc.symm)]
                  exact v₃.1
                · simp only
                  rw [if_neg (fun hc => htiB hc.symm)]
                  exact v₃.2
              · intro hc
                simp only [List.mem_append, List.mem_cons, List.mem_map] at hc
                rcases hc with ((⟨c, -, hc2⟩ | hc) | (hc | hc)) | ⟨c, -, hc2⟩
                · exact Ev.noConfusion hc2
                · exact bA₃ hc
                · exact htiA (Ev.buildTgt.inj hc).symm
                · exact hbevs A hc
                · exact Ev.noConfusion hc2
              · intro hc
                simp only [List.mem_append, List.mem_cons, List.mem_map] at hc
                rcases hc with ((⟨c, -, hc2⟩ | hc) | (hc | hc)) | ⟨c, -, hc2⟩
                · exact Ev.noConfusion hc2
                · exact bB₃ hc
                · exact htiB (Ev.buildTgt.inj hc).symm
                · exact hbevs B hc
                · exact Ev.noConfusion hc2
              · intro _ h2
                cases h2
              · intro h1
                rw [h1] at herr'
                cases herr'
              · intro _ hc
                exact absurd hc htiA
              · intro _ hc
                exact absurd hc htiB

/-- The top-level dispatch loop under the cycle scenario: no `build_target`
for `A` or `B` ever runs, and as soon as the loop reaches `A` or `B` (or an
earlier error), the error flag is up with a cycle diagnostic recorded. -/
theorem buildLoop_cycle (g : Globals) (reg : List Target) (cmds : List Cmd)
    (or : Oracle) (r : Nat → Nat) (A B : Nat)
    (hor : ∀ s f, (or s f).1 = 0)
    (hwfc : ∀ ci ∈ cmds, ∀ d ∈ ci.dependencies, d < cmds.length)
    (hrank : ∀ i ci, cmds.get? i = some ci → ∀ d ∈ ci.dependencies, r d < r i)
    (hrb : ∀ i, i < cmds.length → r i < cmds.length + 1)
    (hA : A < reg.length) (hB : B < reg.length)
    (hdepA : B ∈ (reg.get ⟨A, hA⟩).dependencies)
    (hdepB : A ∈ (reg.get ⟨B, hB⟩).dependencies) (fuel : Nat) :
    ∀ (is : List Nat) (st : BuildSt) st' evs,
      buildLoop g reg cmds or fuel (cmds.length + 1) is st = (st', evs) →
      freeCountF reg.length st.in_stack < fuel → st.fuelOut = false →
      ResultsZero st.cmdSt → VFree A B st → st.err = false →
      Ev.buildTgt A ∉ evs ∧ Ev.buildTgt B ∉ evs ∧
      ((A ∈ is ∨ B ∈ is) → st'.err = true ∧ ∃ j, Ev.cycleError j ∈ evs) := by
  intro is
  induction is with
  | nil =>
    intro st st' evs h hfc hfo hres hvf herr
    simp only [buildLoop, Prod.mk.injEq] at h
    obtain ⟨rfl, rfl⟩ := h
    refine ⟨by simp, by simp, ?_⟩
    intro hm
    rcases hm with hm | hm <;> cases hm
  | cons i rest ih =>
    intro st st' evs h hfc hfo hres hvf herr
    simp only [buildLoop] at h
    by_cases hv : st.visited i = true
    · rw [if_pos hv] at h
      have hiA : i ≠ A := by
        intro hc
        subst hc
        rw [hvf.1] at hv
        cases hv
      have hiB : i ≠ B := by
        intro hc
        subst hc
        rw [hvf.2] at hv
        cases hv
      obtain ⟨w1, w2, w3⟩ := ih st st' evs h hfc hfo hres hvf herr
      refine ⟨w1, w2, ?_⟩
      intro hm
      apply w3
      rcases hm with hm | hm
      · exact Or.inl ((List.mem_cons.mp hm).resolve_left (fun hc => hiA hc.symm))
      · exact Or.inr ((List.mem_cons.mp hm).resolve_left (fun hc => hiB hc.symm))
    · rw [if_neg hv] at h
      rcases hr : dfsBuild g reg cmds or (cmds.length + 1) fuel i st with ⟨st₁, evs₁⟩
      obtain ⟨v₁, r₁, s₁, f₁, bA₁, bB₁, c₁, m₁, kA₁, kB₁⟩ :=
        dfsBuild_cycle g reg cmds or r A B hor hwfc hrank hrb hA hB hdepA hdepB
          fuel i st st₁ evs₁ hr hfc hfo hres hvf
      rw [hr] at h
      by_cases he₁ : st₁.err = true
      · rw [if_pos he₁] at h
        simp only [Prod.mk.injEq] at h
        obtain ⟨rfl, rfl⟩ := h
        exact ⟨bA₁, bB₁, fun _ => ⟨he₁, c₁ herr he₁⟩⟩
      · rw [if_neg he₁] at h
        have he₁' : st₁.err = false := by
          cases hs : st₁.err with
          | false => rfl
          | true => exact absurd hs he₁
        have hiA : i ≠ A := fun hc => he₁ (kA₁ herr hc)
        have hiB : i ≠ B := fun hc => he₁ (kB₁ herr hc)
        rcases hb : buildLoop g reg cmds or fuel (cmds.length + 1) rest st₁
          with ⟨st₂, evs₂⟩
        obtain ⟨w1, w2, w3⟩ := ih st₁ st₂ evs₂ hb (by rw [s₁]; exact hfc) f₁ r₁ v₁ he₁'
        rw [hb] at h
        simp only [Prod.mk.injEq] at h
        obtain ⟨rfl, rfl⟩ := h
        refine ⟨?_, ?_, ?_⟩
        · simp only [List.mem_append, not_or]
          exact ⟨bA₁, w1⟩
        · simp only [List.mem_append, not_or]
          exact ⟨bB₁, w2⟩
        · intro hm
          have hm' : A ∈ rest ∨ B ∈ rest := by
            rcases hm with hm | hm
            · exact Or.inl ((List.mem_cons.mp hm).resolve_left (fun hc => hiA hc.symm))
            · exact Or.inr ((List.mem_cons.mp hm).resolve_left (fun hc => hiB hc.symm))
          obtain ⟨herr₂, j, hj⟩ := w3 hm'
          exact ⟨herr₂, j, List.mem_append.mpr (Or.inr hj)⟩

/-- **C6.** If targets `A` and `B` are mutually dependent through
`link_target` edges, then (in an environment where every subprocess
succeeds, with a well-formed acyclic command graph) `run` with no verb
returns a non-zero exit code, records the "circular dependency involving"
diagnostic for some offending target, and never reaches the `build_target`
step of `A` or `B` — no artifact of theirs is produced. -/
theorem c6_cycle_aborts (cfg : Config) (or : Oracle) (r : Nat → Nat)
    (A B : Nat) (fs : Fs)
    (hor : ∀ s f, (or s f).1 = 0)
    (hwfc : ∀ ci ∈ cfg.cmds, ∀ d ∈ ci.dependencies, d < cfg.cmds.length)
    (hrank : ∀ i ci, cfg.cmds.get? i = some ci → ∀ d ∈ ci.dependencies, r d < r i)
    (hrb : ∀ i, i < cfg.cmds.length → r i < cfg.cmds.length + 1)
    (hA : A < cfg.targets.length) (hB : B < cfg.targets.length)
    (hdepA : B ∈ (cfg.targets.get ⟨A, hA⟩).dependencies)
    (hdepB : A ∈ (cfg.targets.get ⟨B, hB⟩).dependencies) :
    (cbuild_run cfg or [] fs CmdState.init).1 = 1 ∧
    (∃ j, Ev.cycleError j ∈ (cbuild_run cfg or [] fs CmdState.init).2) ∧
    Ev.buildTgt A ∉ (cbuild_run cfg or [] fs CmdState.init).2 ∧
    Ev.buildTgt B ∉ (cbuild_run cfg or [] fs CmdState.init).2 := by
  have hmain : cbuild_run cfg or [] fs CmdState.init =
      defaultBuild cfg or fs CmdState.init := rfl
  rw [hmain]
  unfold defaultBuild
  rcases hb : buildLoop cfg.g cfg.targets cfg.cmds or (cfg.targets.length + 1)
      (cfg.cmds.length + 1) (List.range cfg.targets.length)
      (BuildSt.start fs CmdState.init) with ⟨st₁, evs⟩
  obtain ⟨w1, w2, w3⟩ := buildLoop_cycle cfg.g cfg.targets cfg.cmds or r A B
    hor hwfc hrank hrb hA hB hdepA hdepB (cfg.targets.length + 1)
    (List.range cfg.targets.length) (BuildSt.start fs CmdState.init) st₁ evs hb
    (by rw [(by rfl : (BuildSt.start fs CmdState.init).in_stack = fun _ => false),
          freeCountF_all_false]; omega)
    rfl (fun x => rfl) ⟨rfl, rfl⟩ rfl
  obtain ⟨herr, j, hj⟩ := w3 (Or.inl (List.mem_range.mpr hA))
  dsimp only
  rw [herr, if_pos rfl]
  exact ⟨rfl, ⟨j, hj⟩, w1, w2⟩

/-- Witness for C6: two mutually dependent targets make the run fail. -/
theorem c6_witness :
    (cbuild_run cfgC6 orW0 [] fsNone CmdState.init).1 = 1 :=
  (c6_cycle_aborts cfgC6 orW0 (fun _ => 0) 0 1 fsNone
    (fun _ _ => rfl)
    (by intro ci hci; cases hci)
    (by intro i ci hget; simp [cfgC6] at hget)
    (by intro i hi; simp [cfgC6] at hi)
    (by decide) (by decide)
    (by decide) (by decide)).1

end CBuild
